import Mathlib

/-!
Verification development for the LawGenAI legal-research client.

The definitions below are a shallow embedding of the client-side chat
orchestration (`handleSend` in the Chat component), the input-parsing
logic of the LAW_COMPARISON mode (law-code detection and section-token
extraction, i.e. the JavaScript regular expressions used there), the API
client error-translation rule (`apiService.ts`), and the analytics
upsert trigger of the MySQL schema (`trg_llm_output_analytics`).

Conventions of the embedding:
- JavaScript strings are Lean `String`s; the regex scans work on the
  underlying `List Char`.
- The character classes follow JavaScript with the `i` flag and no `u`
  flag: `\d` is `[0-9]`, `[A-Z]` with `i` is an ASCII letter of either
  case, `\w` (for `\b`) is `[A-Za-z0-9_]`, `\s` is modeled as ASCII
  whitespace.
- Asynchronous backend calls are modeled by an environment `ApiEnv`
  mapping each request to either a parsed response (`Except.ok`) or a
  thrown error carrying its message (`Except.error`).
- React `useState` state is a `ChatState` record; `setX` calls become an
  event trace that is replayed over the state, so both the final state
  and the order of effects (appends, pending-flag writes, backend calls)
  are available to theorems.
- `Math.random`-based message ids are modeled by a fresh-id counter;
  `new Date()` timestamps are not modeled (no claim concerns them).
-/

namespace LawGenAI

/-! ## Character classes (JavaScript semantics) -/

/-- JavaScript `\d`: an ASCII digit. -/
def isDigitC (c : Char) : Bool := decide ('0' ≤ c) && decide (c ≤ '9')

/-- JavaScript `[A-Z]` under the `i` flag: an ASCII letter of either case. -/
def isLetterC (c : Char) : Bool :=
  (decide ('A' ≤ c) && decide (c ≤ 'Z')) || (decide ('a' ≤ c) && decide (c ≤ 'z'))

/-- JavaScript `\w` (used by `\b`): letter, digit or underscore. -/
def isWordC (c : Char) : Bool := isDigitC c || isLetterC c || decide (c = '_')

/-- ASCII whitespace, modelling JavaScript `\s` and `String.prototype.trim`. -/
def jsSpaceC (c : Char) : Bool :=
  decide (c = ' ') || decide (c = '\t') || decide (c = '\n') || decide (c = '\r') ||
  decide (c = '\x0b') || decide (c = '\x0c')

/-- Model of JavaScript `String.prototype.trim` on a character list. -/
def jsTrim (l : List Char) : List Char :=
  ((l.dropWhile jsSpaceC).reverse.dropWhile jsSpaceC).reverse

/-- Model of JavaScript `input.trim()`. -/
def jsTrimS (s : String) : String := ⟨jsTrim s.data⟩

/-! ## Indexed character access -/

/-- Character of `s` at index `i`, with a non-word, non-digit default (a space)
out of range.  All out-of-range uses below only rely on the default being
neither a word character nor a digit nor a hyphen. -/
def chAt (s : List Char) (i : Nat) : Char := s.getD i ' '

/-- Whether position `i` of `s` holds a word character (out of range: no). -/
def wAt (s : List Char) (i : Nat) : Bool := isWordC (chAt s i)

/-- JavaScript `\b` at string position `i` (the gap before index `i`):
word-ness differs between the previous and the next character, with
out-of-range counting as non-word. -/
def bAt (s : List Char) : Nat → Bool
  | 0 => wAt s 0
  | i + 1 => wAt s i != wAt s (i + 1)

/-- Whether position `i` holds an ASCII letter (out of range: no). -/
def letterAt (s : List Char) (i : Nat) : Bool := isLetterC (chAt s i)

/-- Whether position `i` holds a hyphen (out of range: no). -/
def dashAt (s : List Char) (i : Nat) : Bool := chAt s i == '-'

/-- Number of leading ASCII digits of a character list. -/
def digitCount : List Char → Nat
  | [] => 0
  | c :: r => if isDigitC c then digitCount r + 1 else 0

/-- Length of the maximal digit run of `s` starting at index `i`. -/
def digitRun (s : List Char) (i : Nat) : Nat := digitCount (s.drop i)

/-- The substring of `s` on index interval `[i, j)`, as a character list. -/
def slice (s : List Char) (i j : Nat) : List Char := (s.drop i).take (j - i)

/-! ## The section regex `/\b(\d+[A-Z]?(-[A-Z])?)\b/gi` of `handleSend`

`matchEndAt s i` models one attempt of the regex engine at start
position `i` (the caller checks the leading `\b`): `\d+` greedily takes
the whole digit run — shrinking it can never succeed, since the next
character would then be a digit, which fails `[A-Z]?`, `-`, and `\b`
alike — after which the engine tries, in backtracking order,
`[A-Z]` + `-[A-Z]`, then `[A-Z]` alone, then `-[A-Z]` alone, then
neither, each followed by the trailing `\b`.  It returns the end index
of the first (equivalently, the longest) alternative that succeeds. -/
def matchEndAt (s : List Char) (i : Nat) : Option Nat :=
  if digitRun s i = 0 then none
  else if letterAt s (i + digitRun s i) && dashAt s (i + digitRun s i + 1) &&
      letterAt s (i + digitRun s i + 2) && bAt s (i + digitRun s i + 3) then
    some (i + digitRun s i + 3)
  else if letterAt s (i + digitRun s i) && bAt s (i + digitRun s i + 1) then
    some (i + digitRun s i + 1)
  else if dashAt s (i + digitRun s i) && letterAt s (i + digitRun s i + 1) &&
      bAt s (i + digitRun s i + 2) then
    some (i + digitRun s i + 2)
  else if bAt s (i + digitRun s i) then
    some (i + digitRun s i)
  else
    none

/-- Left-to-right global scan of `String.prototype.matchAll`: try each
position in order (a successful attempt needs `\b` before it), and resume
after the end of each match.  `fuel` bounds the recursion; the scan is
run with fuel `s.length + 1`, which is enough since the position strictly
increases. -/
def scanFrom (s : List Char) : Nat → Nat → List (Nat × Nat)
  | 0, _ => []
  | fuel + 1, i =>
    if i < s.length then
      if bAt s i then
        match matchEndAt s i with
        | some j => (i, j) :: scanFrom s fuel j
        | none => scanFrom s fuel (i + 1)
      else scanFrom s fuel (i + 1)
    else []

/-- All match intervals of the section regex over `s`, in occurrence order. -/
def extractIntervals (s : List Char) : List (Nat × Nat) :=
  scanFrom s (s.length + 1) 0

/-- Model of JavaScript `.replace('-', '')`: drop the first hyphen only. -/
def removeFirstDash : List Char → List Char
  | [] => []
  | c :: r => if c = '-' then r else c :: removeFirstDash r

/-- Normalization of a matched token: `.toUpperCase().replace('-', '')`. -/
def normTok (l : List Char) : String := ⟨removeFirstDash (l.map Char.toUpper)⟩

/-- One step of the de-duplicating push: `if (!sectionNumbers.includes(section))
sectionNumbers.push(section)`. -/
def pushUnique (acc : List String) (t : String) : List String :=
  if t ∈ acc then acc else acc ++ [t]

/-- Turn a list of match intervals into the normalized, first-occurrence
de-duplicated token list, exactly as the extraction loop of `handleSend` does. -/
def tokensOfIntervals (s : List Char) (l : List (Nat × Nat)) : List String :=
  l.foldl (fun acc ij => pushUnique acc (normTok (slice s ij.1 ij.2))) []

/-- The section list extracted by `handleSend` in LAW_COMPARISON mode from an
input string: the matches of `/\b(\d+[A-Z]?(-[A-Z])?)\b/gi`, uppercased,
hyphen-stripped, de-duplicated keeping first-seen order. -/
def extractSections (input : String) : List String :=
  tokensOfIntervals input.data (extractIntervals input.data)

/-! ## Specification-side section extraction

The spec describes the extracted sections as "the set of substrings
matching: one or more digits, optionally followed by a single letter,
optionally followed by a hyphen and a letter", normalized and
de-duplicated.  `patTail`/`patP` formalize that pattern; `maximalNB`
formalizes "maximal substring matching the pattern" literally (no word
boundary requirement), and `maximalB` the word-boundary-delimited
variant (both ends of the occurrence lie on a `\b` boundary). -/

/-- The optional tail of the spec pattern: nothing, a single letter, a hyphen
and a letter, or a letter then a hyphen and a letter. -/
def patTail : List Char → Bool
  | [] => true
  | [a] => isLetterC a
  | [a, b] => (a == '-') && isLetterC b
  | [a, b, c] => isLetterC a && (b == '-') && isLetterC c
  | _ => false

/-- The spec pattern: one or more digits (the maximal leading digit run),
optionally followed by a single letter, optionally followed by a hyphen and
a letter. -/
def patP (l : List Char) : Bool :=
  decide (0 < digitCount l) && patTail (l.drop (digitCount l))

/-- Interval `[i, j)` of `s` is an occurrence of the spec pattern. -/
def PmatchAt (s : List Char) (i j : Nat) : Prop :=
  i < j ∧ j ≤ s.length ∧ patP (slice s i j) = true

instance instDecPmatchAt (s : List Char) (i j : Nat) : Decidable (PmatchAt s i j) := by
  unfold PmatchAt; exact inferInstance

/-- Interval `[i, j)` is an occurrence of the spec pattern whose two ends lie
on word boundaries. -/
def PBmatchAt (s : List Char) (i j : Nat) : Prop :=
  PmatchAt s i j ∧ bAt s i = true ∧ bAt s j = true

instance instDecPBmatchAt (s : List Char) (i j : Nat) : Decidable (PBmatchAt s i j) := by
  unfold PBmatchAt; exact inferInstance

/-- The ascending index list `[i, i+1, ..., i+len-1]`. -/
def idxFrom : Nat → Nat → List Nat
  | _, 0 => []
  | i, len + 1 => i :: idxFrom (i + 1) len

/-- Some strictly larger occurrence of the pattern contains `[i, j)`. -/
def properSuperNB (s : List Char) (i j : Nat) : Bool :=
  (idxFrom 0 (s.length + 1)).any fun i2 =>
    (idxFrom 0 (s.length + 1)).any fun j2 =>
      decide (i2 ≤ i) && decide (j ≤ j2) && !(decide (i2 = i) && decide (j2 = j)) &&
        decide (PmatchAt s i2 j2)

/-- Occurrence `[i, j)` of the pattern is maximal: it is contained in no
strictly larger occurrence.  This is the literal reading of the spec's
"maximal substrings matching" the pattern. -/
def maximalNB (s : List Char) (i j : Nat) : Bool :=
  decide (PmatchAt s i j) && !properSuperNB s i j

/-- Some strictly larger boundary-delimited occurrence contains `[i, j)`. -/
def properSuperB (s : List Char) (i j : Nat) : Bool :=
  (idxFrom 0 (s.length + 1)).any fun i2 =>
    (idxFrom 0 (s.length + 1)).any fun j2 =>
      decide (i2 ≤ i) && decide (j ≤ j2) && !(decide (i2 = i) && decide (j2 = j)) &&
        decide (PBmatchAt s i2 j2)

/-- Boundary-delimited occurrence `[i, j)` that is maximal among
boundary-delimited occurrences of the pattern. -/
def maximalB (s : List Char) (i j : Nat) : Bool :=
  decide (PBmatchAt s i j) && !properSuperB s i j

/-- The maximal occurrences of the pattern, in first-occurrence order. -/
def specIntervalsNB (s : List Char) : List (Nat × Nat) :=
  (idxFrom 0 (s.length + 1)).filterMap fun i =>
    (List.find? (fun j => maximalNB s i j) (idxFrom 0 (s.length + 1))).map fun j => (i, j)

/-- The maximal boundary-delimited occurrences, in first-occurrence order. -/
def specIntervalsB (s : List Char) : List (Nat × Nat) :=
  (idxFrom 0 (s.length + 1)).filterMap fun i =>
    (List.find? (fun j => maximalB s i j) (idxFrom 0 (s.length + 1))).map fun j => (i, j)

/-- Section extraction as literally described by the spec: maximal substrings
matching the pattern, normalized to uppercase with the hyphen stripped, kept
in first-occurrence order with exact duplicates dropped. -/
def specExtractMaximal (input : String) : List String :=
  tokensOfIntervals input.data (specIntervalsNB input.data)

/-- Section extraction per the spec amended with word-boundary delimitation:
maximal boundary-delimited substrings matching the pattern, normalized and
de-duplicated the same way. -/
def specExtractBounded (input : String) : List String :=
  tokensOfIntervals input.data (specIntervalsB input.data)

/-! ## Law-code detection

`handleSend` detects the law code with the tests
`/(?:^|\s)(CRPC|CrPC)(?:\s|$)/i`, `/(?:^|\s)IEA(?:\s|$)/i`,
`/(?:^|\s)IPC(?:\s|$)/i`, in that order, defaulting to `'IPC'`.
(The `CRPC|CrPC` alternation is redundant under the `i` flag.)
`occursWS pat s` is the truth value of such a test: the token occurs
case-insensitively somewhere in `s`, preceded by whitespace or the start
of the string and followed by whitespace or the end of the string. -/
def occursWS (pat : String) (s : String) : Bool :=
  (idxFrom 0 (s.data.length + 1)).any fun i =>
    (decide (i = 0) || jsSpaceC (chAt s.data (i - 1))) &&
    decide (i + pat.data.length ≤ s.data.length) &&
    ((slice s.data i (i + pat.data.length)).map Char.toUpper == pat.data.map Char.toUpper) &&
    (decide (i + pat.data.length = s.data.length) || jsSpaceC (chAt s.data (i + pat.data.length)))

/-- Law-code detection of `handleSend` (applied to the trimmed input):
`CRPC`, then `IEA`, then `IPC`, defaulting to `IPC`. -/
def detectLawType (input : String) : String :=
  if occursWS "CRPC" input then "CRPC"
  else if occursWS "IEA" input then "IEA"
  else if occursWS "IPC" input then "IPC"
  else "IPC"

/-- Occurrence of a token "as a whole word", as the spec's words describe it:
the token occurs case-insensitively with a word boundary (`\b`) on each side,
i.e. not adjacent to a further letter, digit or underscore.  For the
all-letter code tokens this is the conventional whole-word reading, and it is
strictly wider than the whitespace-or-edge delimitation the source's
`/(?:^|\s)CODE(?:\s|$)/i` tests implement: `"CRPC, 154"` contains `CRPC` as a
whole word (the comma is a boundary) but fails the source's test. -/
def occursWholeWord (pat : String) (s : String) : Bool :=
  (idxFrom 0 (s.data.length + 1)).any fun i =>
    (decide (i = 0) || !(isWordC (chAt s.data (i - 1)))) &&
    decide (i + pat.data.length ≤ s.data.length) &&
    ((slice s.data i (i + pat.data.length)).map Char.toUpper == pat.data.map Char.toUpper) &&
    (decide (i + pat.data.length = s.data.length) ||
      !(isWordC (chAt s.data (i + pat.data.length))))

/-! ## Data model (types.ts / apiService.ts) -/

/-- `LawComparison` of `apiService.ts`. -/
structure LawComparison where
  old_law : String
  old_section : String
  old_title : String
  new_law : String
  new_section : String
  new_title : String
  changes : String
  original_text : Option String
deriving DecidableEq, Repr

/-- `CaseResult` of `apiService.ts`. -/
structure CaseResult where
  title : String
  doc_id : String
  snippet : String
  case_link : String
deriving DecidableEq, Repr

/-- `ChatResponse` of `apiService.ts`. -/
structure ChatResponse where
  answer : String
  success : Bool
  law_comparisons : Option (List LawComparison)
deriving DecidableEq, Repr

/-- `KanoonSearchResponse` of `apiService.ts`. -/
structure KanoonSearchResponse where
  cases : List CaseResult
  total_found : Nat
  success : Bool
  law_comparisons : Option (List LawComparison)
deriving DecidableEq, Repr

/-- `LawCompareResponse` of `apiService.ts`. -/
structure LawCompareResponse where
  success : Bool
  comparison : Option LawComparison
  error : Option String
deriving DecidableEq, Repr

/-- `ChatMode` of `types.ts`. -/
inductive ChatMode where
  | PDF_CHAT
  | KANOON_SEARCH
  | LAW_COMPARISON
deriving DecidableEq, Repr

/-- A transcript message (the `Message` interface): id, role, content,
content-kind tag (the source field `type`, called `mtype` here), and the
optional payload lists.  `new Date()` timestamps are not modeled. -/
structure Message where
  id : Nat
  role : String
  content : String
  mtype : String
  law_comparisons : Option (List LawComparison)
  cases : Option (List CaseResult)
deriving DecidableEq, Repr

/-- Message payload before an id is assigned on append. -/
structure MsgData where
  role : String
  content : String
  mtype : String
  law_comparisons : Option (List LawComparison)
  cases : Option (List CaseResult)
deriving DecidableEq, Repr

/-- Assign a fresh id to a message payload. -/
def mkMsg (n : Nat) (d : MsgData) : Message :=
  { id := n, role := d.role, content := d.content, mtype := d.mtype,
    law_comparisons := d.law_comparisons, cases := d.cases }

/-- The orchestrator's state: the `useState` cells of the Chat component that
`handleSend` reads or writes. -/
structure ChatState where
  input : String
  messages : List Message
  isLoading : Bool
  chatMode : ChatMode
  pdfUploaded : Bool
  nextId : Nat
deriving Repr

/-- One backend request issued by `handleSend`. -/
inductive CallRec where
  | pdfChat (question : String)
  | kanoon (query : String)
  | lawCompare (lawType : String) (sec : String)
deriving DecidableEq, Repr

/-- The backend environment: each API client call either resolves to a parsed
response or rejects with a thrown error message. -/
structure ApiEnv where
  chatWithPDF : String → Except String ChatResponse
  searchKanoon : String → Except String KanoonSearchResponse
  compareLawSection : String → String → Except String LawCompareResponse

/-- One observable effect of `handleSend`, in program order: a `setMessages`
append, a `setIsLoading` write, a `setInput` write, or a backend call. -/
inductive Ev where
  | appendMsg (d : MsgData)
  | setLoading (b : Bool)
  | setInput (v : String)
  | call (c : CallRec)
deriving DecidableEq, Repr

/-- Replay one effect over the state (backend calls do not change client
state; appends assign the next fresh id). -/
def applyEv (s : ChatState) : Ev → ChatState
  | .appendMsg d =>
      { s with messages := s.messages ++ [mkMsg s.nextId d], nextId := s.nextId + 1 }
  | .setLoading b => { s with isLoading := b }
  | .setInput v => { s with input := v }
  | .call _ => s

/-- Replay a whole effect trace. -/
def replay (s : ChatState) (evs : List Ev) : ChatState := evs.foldl applyEv s

/-! ## The orchestrator `handleSend` -/

/-- The user's own message appended first on every accepted submission. -/
def userData (input : String) : MsgData :=
  { role := "user", content := input, mtype := "text", law_comparisons := none, cases := none }

/-- Warning appended in PDF_CHAT mode when no PDF was uploaded yet. -/
def pdfWarnData : MsgData :=
  { role := "assistant",
    content := "⚠️ Please upload a PDF document first before asking questions.",
    mtype := "text", law_comparisons := none, cases := none }

/-- Warning appended in LAW_COMPARISON mode when no section token was extracted. -/
def noSectionsData : MsgData :=
  { role := "assistant",
    content := "⚠️ No valid section numbers found. Please enter section numbers (e.g., \"IPC 302 376\" or \"CRPC 154 156\").",
    mtype := "text", law_comparisons := none, cases := none }

/-- Error message appended by the `catch` blocks of `handleSend`. -/
def errorData (m : String) : MsgData :=
  { role := "assistant", content := "⚠️ Error: " ++ m, mtype := "text",
    law_comparisons := none, cases := none }

/-- Assistant message for a PDF_CHAT answer. -/
def answerData (r : ChatResponse) : MsgData :=
  { role := "assistant", content := r.answer, mtype := "text",
    law_comparisons := r.law_comparisons, cases := none }

/-- Assistant message for a Kanoon search result. -/
def kanoonData (r : KanoonSearchResponse) : MsgData :=
  { role := "assistant",
    content :=
      if r.cases.length > 0 then
        "Found " ++ toString r.total_found ++ " relevant cases. Showing top " ++
          toString r.cases.length ++ ":"
      else "❌ No relevant cases found for your query.",
    mtype := "cases", law_comparisons := r.law_comparisons, cases := some r.cases }

/-- Outcome classification of one comparison lookup inside the per-section
loop: the comparison payload when the call resolved with `success` and a
payload, `none` otherwise (unsuccessful flag, missing payload, or thrown
error caught by the per-iteration `catch`). -/
def lookupOutcome (env : ApiEnv) (lawType sec : String) : Option LawComparison :=
  match env.compareLawSection lawType sec with
  | .ok r => if r.success then r.comparison else none
  | .error _ => none

/-- Per-section loop results: each extracted section paired with its outcome. -/
def outPairsOf (env : ApiEnv) (lawType : String) (secs : List String) :
    List (String × Option LawComparison) :=
  secs.map fun sec => (sec, lookupOutcome env lawType sec)

/-- The `comparisons` array accumulated by the loop, in lookup order. -/
def comparisonsOf (env : ApiEnv) (lawType : String) (secs : List String) :
    List LawComparison :=
  (outPairsOf env lawType secs).filterMap fun p => p.2

/-- The `notFound` array accumulated by the loop, in lookup order. -/
def notFoundOf (env : ApiEnv) (lawType : String) (secs : List String) : List String :=
  ((outPairsOf env lawType secs).filter fun p => p.2.isNone).map fun p => p.1

/-- Content of the `comparisons`-tagged message: the single-section form
when exactly one comparison was found (note: the code branches on the number
of comparisons FOUND, and names `sectionNumbers[0]`), the count form
otherwise. -/
def compContent (lawType : String) (secs : List String) (comps : List LawComparison) :
    String :=
  if comps.length = 1 then
    "Comparison for " ++ lawType ++ " Section " ++ secs.headD "" ++ ":"
  else
    "Found " ++ toString comps.length ++ " comparison" ++
      (if comps.length > 1 then "s" else "") ++ " for " ++ lawType ++ " sections:"

/-- Content of the warning naming the sections that were not found. -/
def nfContent (lawType : String) (nf : List String) : String :=
  "⚠️ Note: No comparison data found for " ++ lawType ++ " section" ++
    (if nf.length > 1 then "s" else "") ++ ": " ++ String.intercalate ", " nf

/-- Content of the failure message when no comparison at all was found. -/
def failContent (lawType : String) (secs : List String) : String :=
  "❌ No comparison data found for " ++ lawType ++ " section" ++
    (if secs.length > 1 then "s" else "") ++ ": " ++ String.intercalate ", " secs ++
    ". Please check the section numbers."

/-- The display step after the lookup loop (`// Display results`): one
`comparisons`-tagged message plus an optional not-found warning when at least
one comparison was found, a single failure message otherwise. -/
def displayEvents (lawType : String) (secs : List String)
    (comps : List LawComparison) (nf : List String) : List Ev :=
  if comps.length > 0 then
    Ev.appendMsg { role := "assistant", content := compContent lawType secs comps,
                   mtype := "comparisons", law_comparisons := some comps, cases := none } ::
      (if nf.length > 0 then
        [Ev.appendMsg { role := "assistant", content := nfContent lawType nf,
                        mtype := "text", law_comparisons := none, cases := none }]
      else [])
  else
    [Ev.appendMsg { role := "assistant", content := failContent lawType secs,
                    mtype := "text", law_comparisons := none, cases := none }]

/-- The trimmed input (`cleanInput`). -/
def cleanOf (s : ChatState) : String := jsTrimS s.input

/-- The detected law code (`lawType`). -/
def ltOf (s : ChatState) : String := detectLawType (cleanOf s)

/-- The extracted section list (`sectionNumbers`). -/
def secsOf (s : ChatState) : List String := extractSections (cleanOf s)

/-- The found comparisons for the current submission. -/
def compsOf (env : ApiEnv) (s : ChatState) : List LawComparison :=
  comparisonsOf env (ltOf s) (secsOf s)

/-- The not-found sections for the current submission. -/
def nfOf (env : ApiEnv) (s : ChatState) : List String :=
  notFoundOf env (ltOf s) (secsOf s)

/-- The mode-dependent body of `handleSend` (the `try` block after the user
message is appended).  In LAW_COMPARISON mode the per-section lookups happen
sequentially before the display messages; call errors are caught by the
per-iteration `catch` (folded into `lookupOutcome`), so the inner and outer
`catch` blocks are unreachable on this path.  In the other two modes a
thrown call error reaches the outer `catch`, which appends an error
message. -/
def handleSendBody (env : ApiEnv) (s : ChatState) : List Ev :=
  match s.chatMode with
  | ChatMode.PDF_CHAT =>
      if s.pdfUploaded = false then [Ev.appendMsg pdfWarnData]
      else
        Ev.call (CallRec.pdfChat s.input) ::
          (match env.chatWithPDF s.input with
           | .ok r => [Ev.appendMsg (answerData r)]
           | .error m => [Ev.appendMsg (errorData m)])
  | ChatMode.LAW_COMPARISON =>
      if (secsOf s).length = 0 then [Ev.appendMsg noSectionsData]
      else
        ((secsOf s).map fun sec => Ev.call (CallRec.lawCompare (ltOf s) sec)) ++
          displayEvents (ltOf s) (secsOf s) (compsOf env s) (nfOf env s)
  | ChatMode.KANOON_SEARCH =>
      Ev.call (CallRec.kanoon s.input) ::
        (match env.searchKanoon s.input with
         | .ok r => [Ev.appendMsg (kanoonData r)]
         | .error m => [Ev.appendMsg (errorData m)])

/-- The effect trace of one `handleSend` invocation.  The guard
`if (!input.trim() || isLoading) return;` produces the empty trace; otherwise
the user message is appended, the input cleared and the pending flag set,
then the mode body runs, and the `finally` block clears the pending flag on
every path (including the early `return` on zero extracted sections and the
`catch` paths). -/
def handleSendTrace (env : ApiEnv) (s : ChatState) : List Ev :=
  if jsTrimS s.input = "" ∨ s.isLoading = true then []
  else
    Ev.appendMsg (userData s.input) :: Ev.setInput "" :: Ev.setLoading true ::
      (handleSendBody env s ++ [Ev.setLoading false])

/-- The state after one `handleSend` invocation. -/
def handleSendFinal (env : ApiEnv) (s : ChatState) : ChatState :=
  replay s (handleSendTrace env s)

/-- The messages appended by one `handleSend` invocation. -/
def appendedMessages (env : ApiEnv) (s : ChatState) : List Message :=
  (handleSendFinal env s).messages.drop s.messages.length

/-! ## API client error translation (`apiService.ts`)

Every client function ends its non-success path with
`const error = await response.json(); throw new Error(error.detail || FALLBACK)`.
`ErrorBody` models the result of `response.json()` on the error body:
either it rejects (absent or unparsable body — the `SyntaxError` of
`JSON.parse` then propagates, since the `await` is not wrapped in its own
`try`), or it resolves to a value whose `detail` property is a string or
absent.  `apiThrownMessage` is the message of the error the client
function's promise rejects with. -/

/-- Result of `await response.json()` on the error body. -/
inductive ErrorBody where
  | unparsable (parseMsg : String)
  | parsed (detail : Option String)
deriving DecidableEq, Repr

/-- An HTTP response as far as the error path observes it. -/
structure HttpResponse where
  ok : Bool
  errorBody : ErrorBody
deriving DecidableEq, Repr

/-- The message of the error thrown on a non-success response: the
propagated parse error if `response.json()` rejects, otherwise
`error.detail || fallback` (an absent or empty `detail` is falsy). -/
def apiThrownMessage (body : ErrorBody) (fallback : String) : String :=
  match body with
  | .unparsable m => m
  | .parsed (some d) => if d = "" then fallback else d
  | .parsed none => fallback

/-- Model of `chatWithPDF` restricted to what the claim observes: on a
non-success status it throws with the translated message (fallback
`'Failed to get response'`), otherwise it resolves to the parsed body. -/
def chatWithPDFModel (resp : HttpResponse) (body : ChatResponse) :
    Except String ChatResponse :=
  if resp.ok then Except.ok body
  else Except.error (apiThrownMessage resp.errorBody "Failed to get response")

/-- Model of `compareLawSection` (fallback `'Failed to compare law section'`). -/
def compareLawSectionModel (resp : HttpResponse) (body : LawCompareResponse) :
    Except String LawCompareResponse :=
  if resp.ok then Except.ok body
  else Except.error (apiThrownMessage resp.errorBody "Failed to compare law section")

/-! ## Analytics upsert trigger (schema, `trg_llm_output_analytics`)

The `analytics` table has `UNIQUE KEY uk_date_metric (date, metric_type)`;
the trigger runs, for each row inserted into `llm_outputs`,
`INSERT INTO analytics (date, metric_type, metric_value) VALUES
(DATE(NEW.created_at), 'llm_calls', 1) ON DUPLICATE KEY UPDATE
metric_value = metric_value + 1`.  Dates are abstracted to `Nat`. -/

/-- One row of the `analytics` table (the surrogate id column is not
modeled; rows are identified by the unique `(date, metric_type)` key). -/
structure AnalyticsRow where
  date : Nat
  metric : String
  value : Nat
deriving DecidableEq, Repr

/-- Whether a row carries the given `(date, metric_type)` key. -/
def keyedRow (d : Nat) (m : String) (r : AnalyticsRow) : Bool :=
  decide (r.date = d) && decide (r.metric = m)

/-- The trigger's insert-or-increment upsert against the unique key. -/
def upsertAnalytics (tbl : List AnalyticsRow) (d : Nat) (m : String) :
    List AnalyticsRow :=
  if tbl.any (keyedRow d m) then
    tbl.map fun r => if keyedRow d m r then { r with value := r.value + 1 } else r
  else tbl ++ [{ date := d, metric := m, value := 1 }]

/-- Effect on `analytics` of inserting `n` rows into `llm_outputs` whose
`created_at` falls on calendar date `d`: the trigger fires once per row. -/
def insertLlmOutputs (tbl : List AnalyticsRow) (d : Nat) : Nat → List AnalyticsRow
  | 0 => tbl
  | n + 1 => upsertAnalytics (insertLlmOutputs tbl d n) d "llm_calls"

/-! ## Concrete fixtures for counterexamples and witnesses -/

/-- A sample comparison payload (IPC 376 → BNS 64). -/
def cmp376 : LawComparison :=
  { old_law := "IPC", old_section := "376", old_title := "Rape",
    new_law := "BNS", new_section := "64", new_title := "Rape",
    changes := "Renumbered", original_text := none }

/-- A sample comparison payload (IPC 302 → BNS 103). -/
def cmp302 : LawComparison :=
  { old_law := "IPC", old_section := "302", old_title := "Murder",
    new_law := "BNS", new_section := "103", new_title := "Murder",
    changes := "Renumbered", original_text := none }

/-- Backend where the lookup for section 376 succeeds and every other
comparison lookup reports `success: false`. -/
def envOnly376 : ApiEnv :=
  { chatWithPDF := fun _ => Except.error "unreachable",
    searchKanoon := fun _ => Except.error "unreachable",
    compareLawSection := fun _ sec =>
      if sec = "376" then Except.ok { success := true, comparison := some cmp376, error := none }
      else Except.ok { success := false, comparison := none, error := some "Section not found" } }

/-- Backend where every comparison lookup succeeds with `cmp302`. -/
def envAllFound : ApiEnv :=
  { chatWithPDF := fun _ => Except.ok { answer := "ok", success := true, law_comparisons := none },
    searchKanoon := fun _ =>
      Except.ok { cases := [], total_found := 0, success := true, law_comparisons := none },
    compareLawSection := fun _ _ =>
      Except.ok { success := true, comparison := some cmp302, error := none } }

/-- Backend where every comparison lookup throws. -/
def envAllThrow : ApiEnv :=
  { chatWithPDF := fun _ => Except.error "boom",
    searchKanoon := fun _ => Except.error "boom",
    compareLawSection := fun _ _ => Except.error "boom" }

/-- An idle LAW_COMPARISON state about to submit `"IPC 302 376"`. -/
def stTwoSecs : ChatState :=
  { input := "IPC 302 376", messages := [], isLoading := false,
    chatMode := ChatMode.LAW_COMPARISON, pdfUploaded := false, nextId := 0 }

/-- An idle LAW_COMPARISON state about to submit `"IPC 302"`. -/
def stOneSec : ChatState :=
  { input := "IPC 302", messages := [], isLoading := false,
    chatMode := ChatMode.LAW_COMPARISON, pdfUploaded := false, nextId := 0 }

/-- A state submitting while a call is already pending. -/
def stPending : ChatState :=
  { input := "IPC 302", messages := [], isLoading := true,
    chatMode := ChatMode.LAW_COMPARISON, pdfUploaded := false, nextId := 0 }

/-- A PDF_CHAT state with no successful upload yet. -/
def stPdfNoUpload : ChatState :=
  { input := "what does clause 3 say?", messages := [], isLoading := false,
    chatMode := ChatMode.PDF_CHAT, pdfUploaded := false, nextId := 0 }

/-- A LAW_COMPARISON state whose input contains no section token. -/
def stNoSections : ChatState :=
  { input := "hello there", messages := [], isLoading := false,
    chatMode := ChatMode.LAW_COMPARISON, pdfUploaded := false, nextId := 0 }

/-! ## Auxiliary views of effect traces -/

/-- The `appendMsg` payloads of a trace, in order. -/
def appendsOf : List Ev → List MsgData
  | [] => []
  | Ev.appendMsg d :: r => d :: appendsOf r
  | Ev.setLoading _ :: r => appendsOf r
  | Ev.setInput _ :: r => appendsOf r
  | Ev.call _ :: r => appendsOf r

/-- Messages obtained by assigning consecutive fresh ids to payloads. -/
def renderFrom (n : Nat) : List MsgData → List Message
  | [] => []
  | d :: r => mkMsg n d :: renderFrom (n + 1) r

/-- Declarative description of the scan from position `i` on: every position
`k ≥ i` that lies on a word boundary and at which the regex matches
contributes its match interval. -/
def bStarts (s : List Char) (i : Nat) : List (Nat × Nat) :=
  (idxFrom i (s.length - i)).filterMap fun k =>
    if bAt s k then (matchEndAt s k).map fun j => (k, j) else none

/-! # Theorems

General lemmas about trace replay, then the claim theorems. -/

theorem appendsOf_append (a b : List Ev) : appendsOf (a ++ b) = appendsOf a ++ appendsOf b := by
  induction a with
  | nil => rfl
  | cons e r ih => cases e <;> simp [appendsOf, ih]

theorem renderFrom_length (n : Nat) (l : List MsgData) : (renderFrom n l).length = l.length := by
  induction l generalizing n with
  | nil => rfl
  | cons d r ih => simp [renderFrom, ih]

theorem replay_messages (evs : List Ev) (s : ChatState) :
    (replay s evs).messages = s.messages ++ renderFrom s.nextId (appendsOf evs) := by
  induction evs generalizing s with
  | nil => simp [replay, renderFrom, appendsOf]
  | cons e r ih =>
    cases e with
    | appendMsg d =>
        have h := ih (applyEv s (Ev.appendMsg d))
        simp [replay] at h ⊢
        simp [applyEv] at h ⊢
        simp [h, appendsOf, renderFrom]
    | setLoading b =>
        have h := ih (applyEv s (Ev.setLoading b))
        simp [replay] at h ⊢
        simpa [applyEv, appendsOf] using h
    | setInput v =>
        have h := ih (applyEv s (Ev.setInput v))
        simp [replay] at h ⊢
        simpa [applyEv, appendsOf] using h
    | call c =>
        have h := ih (applyEv s (Ev.call c))
        simp [replay] at h ⊢
        simpa [applyEv, appendsOf] using h

theorem replay_append (s : ChatState) (a b : List Ev) :
    replay s (a ++ b) = replay (replay s a) b := by
  simp [replay, List.foldl_append]

theorem appendedMessages_eq (env : ApiEnv) (s : ChatState)
    (h : ¬(jsTrimS s.input = "" ∨ s.isLoading = true)) :
    appendedMessages env s =
      renderFrom s.nextId (userData s.input :: appendsOf (handleSendBody env s)) := by
  unfold appendedMessages handleSendFinal handleSendTrace
  rw [if_neg h]
  rw [replay_messages]
  rw [List.drop_left]
  have : appendsOf
      (Ev.appendMsg (userData s.input) :: Ev.setInput "" :: Ev.setLoading true ::
        (handleSendBody env s ++ [Ev.setLoading false])) =
      userData s.input :: appendsOf (handleSendBody env s) := by
    simp [appendsOf, appendsOf_append]
  rw [this]

/-- Claim C7: a submission whose trimmed input is empty, or made while a call
is pending, is a no-op: the whole state (transcript, mode, pending flag,
attachment state, input) is unchanged and no backend call is issued (the
effect trace is empty). -/
theorem claimC7_theorem (env : ApiEnv) (s : ChatState)
    (h : jsTrimS s.input = "" ∨ s.isLoading = true) :
    handleSendFinal env s = s ∧ handleSendTrace env s = [] := by
  have ht : handleSendTrace env s = [] := by
    unfold handleSendTrace
    exact if_pos h
  refine ⟨?_, ht⟩
  unfold handleSendFinal
  rw [ht]
  rfl

/-- Witness for C7 at a concrete pending state. -/
theorem claimC7_witness :
    (jsTrimS stPending.input = "" ∨ stPending.isLoading = true) ∧
    handleSendFinal envAllFound stPending = stPending ∧
    handleSendTrace envAllFound stPending = [] :=
  ⟨Or.inr rfl, claimC7_theorem envAllFound stPending (Or.inr rfl)⟩

/-- Claim C8: on every execution path past the initial guard — every mode,
every backend outcome, including the early return on zero extracted sections
and thrown errors — the trace sets the pending flag before any backend call
(all calls lie in the body, after the `setLoading true` event) and ends with
`setLoading false`, so the final state is not loading. -/
theorem claimC8_theorem (env : ApiEnv) (s : ChatState)
    (h : ¬(jsTrimS s.input = "" ∨ s.isLoading = true)) :
    (handleSendFinal env s).isLoading = false ∧
    handleSendTrace env s =
      Ev.appendMsg (userData s.input) :: Ev.setInput "" :: Ev.setLoading true ::
        (handleSendBody env s ++ [Ev.setLoading false]) ∧
    (∀ c : CallRec, Ev.call c ∈ handleSendTrace env s → Ev.call c ∈ handleSendBody env s) := by
  have ht : handleSendTrace env s =
      Ev.appendMsg (userData s.input) :: Ev.setInput "" :: Ev.setLoading true ::
        (handleSendBody env s ++ [Ev.setLoading false]) := by
    unfold handleSendTrace
    exact if_neg h
  refine ⟨?_, ht, ?_⟩
  · unfold handleSendFinal
    rw [ht]
    have : Ev.appendMsg (userData s.input) :: Ev.setInput "" :: Ev.setLoading true ::
        (handleSendBody env s ++ [Ev.setLoading false]) =
        (Ev.appendMsg (userData s.input) :: Ev.setInput "" :: Ev.setLoading true ::
          handleSendBody env s) ++ [Ev.setLoading false] := by
      simp
    rw [this, replay_append]
    simp [replay, applyEv]
  · intro c hc
    rw [ht] at hc
    simp only [List.mem_cons, List.mem_append] at hc
    rcases hc with h1 | h1 | h1 | h1 | h1
    · exact absurd h1 (by simp)
    · exact absurd h1 (by simp)
    · exact absurd h1 (by simp)
    · exact h1
    · exact absurd h1 (by simp)

/-- Witness for C8 at a concrete accepted submission. -/
theorem claimC8_witness :
    ¬(jsTrimS stTwoSecs.input = "" ∨ stTwoSecs.isLoading = true) ∧
    (handleSendFinal envOnly376 stTwoSecs).isLoading = false :=
  ⟨by decide, (claimC8_theorem envOnly376 stTwoSecs (by decide)).1⟩

/-- Claim C10: every accepted submission first appends the user's own message
(role `user`, kind `text`, content the raw input), in every mode; on the two
client-side validation-failure paths (PDF_CHAT without an upload,
LAW_COMPARISON with zero extracted sections) exactly one further message
follows, so the transcript grows by two. -/
theorem claimC10_theorem (env : ApiEnv) (s : ChatState)
    (h : ¬(jsTrimS s.input = "" ∨ s.isLoading = true)) :
    ∃ rest,
      appendedMessages env s =
        { id := s.nextId, role := "user", content := s.input, mtype := "text",
          law_comparisons := none, cases := none } :: rest ∧
      (s.chatMode = ChatMode.PDF_CHAT → s.pdfUploaded = false → rest.length = 1) ∧
      (s.chatMode = ChatMode.LAW_COMPARISON → secsOf s = [] → rest.length = 1) := by
  refine ⟨renderFrom (s.nextId + 1) (appendsOf (handleSendBody env s)), ?_, ?_, ?_⟩
  · rw [appendedMessages_eq env s h]
    rfl
  · intro hm hp
    rw [renderFrom_length]
    unfold handleSendBody
    rw [hm]
    simp [hp, appendsOf]
  · intro hm hsec
    rw [renderFrom_length]
    unfold handleSendBody
    rw [hm]
    simp [hsec, appendsOf]

/-- Witness for C10: the PDF_CHAT-without-upload path at a concrete input. -/
theorem claimC10_witness :
    ¬(jsTrimS stPdfNoUpload.input = "" ∨ stPdfNoUpload.isLoading = true) ∧
    ∃ rest,
      appendedMessages envAllFound stPdfNoUpload =
        { id := 0, role := "user", content := "what does clause 3 say?", mtype := "text",
          law_comparisons := none, cases := none } :: rest ∧
      (stPdfNoUpload.chatMode = ChatMode.PDF_CHAT → stPdfNoUpload.pdfUploaded = false →
        rest.length = 1) ∧
      (stPdfNoUpload.chatMode = ChatMode.LAW_COMPARISON → secsOf stPdfNoUpload = [] →
        rest.length = 1) :=
  ⟨by decide, claimC10_theorem envAllFound stPdfNoUpload (by decide)⟩

theorem found_notFound_length (env : ApiEnv) (lawType : String) (secs : List String) :
    (comparisonsOf env lawType secs).length + (notFoundOf env lawType secs).length =
      secs.length := by
  induction secs with
  | nil => rfl
  | cons sec rest ih =>
    simp only [comparisonsOf, notFoundOf, outPairsOf, List.map_cons, List.filterMap_cons,
      List.filter_cons, List.length_map] at ih ⊢
    cases h : lookupOutcome env lawType sec <;>
      simp only [h, Option.isNone_none, Option.isNone_some, List.length_cons, List.length_map,
        List.map_cons, if_true, if_false, Function.comp] <;>
      simp at ih ⊢ <;> omega

/-- Claim C5: in the per-section loop every extracted section lands in exactly
one of the two buckets — the number of found comparisons plus the number of
not-found sections equals the number of extracted sections — and a lookup
that throws, or resolves with an unsuccessful flag, or resolves without a
comparison payload, is classified as not found (outcome `none`). -/
theorem claimC5_theorem (env : ApiEnv) (lawType : String) (secs : List String) :
    (comparisonsOf env lawType secs).length + (notFoundOf env lawType secs).length =
        secs.length ∧
    (∀ sec e, env.compareLawSection lawType sec = Except.error e →
        lookupOutcome env lawType sec = none) ∧
    (∀ sec r, env.compareLawSection lawType sec = Except.ok r → r.success = false →
        lookupOutcome env lawType sec = none) ∧
    (∀ sec r, env.compareLawSection lawType sec = Except.ok r → r.comparison = none →
        lookupOutcome env lawType sec = none) := by
  refine ⟨found_notFound_length env lawType secs, ?_, ?_, ?_⟩
  · intro sec e he
    simp [lookupOutcome, he]
  · intro sec r hr hs
    simp [lookupOutcome, hr, hs]
  · intro sec r hr hc
    simp [lookupOutcome, hr, hc]

/-- Witness for C5: the mixed scenario (one found, one thrown) at concrete
inputs, plus a concrete thrown lookup classified as not found. -/
theorem claimC5_witness :
    (comparisonsOf envOnly376 "IPC" ["302", "376"]).length +
        (notFoundOf envOnly376 "IPC" ["302", "376"]).length = 2 ∧
    lookupOutcome envAllThrow "IPC" "302" = none :=
  ⟨(claimC5_theorem envOnly376 "IPC" ["302", "376"]).1,
   (claimC5_theorem envAllThrow "IPC" ["302"]).2.1 "302" "boom" rfl⟩

theorem keyedRow_increment (d : Nat) (m : String) (r : AnalyticsRow) :
    keyedRow d m { r with value := r.value + 1 } = keyedRow d m r := rfl

theorem filter_upsert_map (d : Nat) (m : String) (l : List AnalyticsRow) :
    (l.map fun r => if keyedRow d m r then { r with value := r.value + 1 } else r).filter
        (keyedRow d m) =
      (l.filter (keyedRow d m)).map fun r => { r with value := r.value + 1 } := by
  induction l with
  | nil => rfl
  | cons r rest ih =>
    by_cases h : keyedRow d m r = true
    · simp only [List.map_cons, if_pos h, List.filter_cons, keyedRow_increment, h, if_true]
      rw [ih]
    · have hf : keyedRow d m r = false := by
        cases hk : keyedRow d m r
        · rfl
        · exact absurd hk h
      simp [List.map_cons, List.filter_cons, if_neg h, hf, ih]

/-- Claim C9: starting from an analytics table with no row keyed
`(d, 'llm_calls')`, inserting `N ≥ 1` rows into `llm_outputs` dated `d`
leaves exactly one `analytics` row with that key, and its `metric_value`
is `N` — via the trigger's insert-or-increment upsert on the unique
`(date, metric_type)` key. -/
theorem claimC9_theorem (tbl : List AnalyticsRow) (d : Nat) (N : Nat)
    (h0 : tbl.filter (keyedRow d "llm_calls") = []) (hN : 1 ≤ N) :
    (insertLlmOutputs tbl d N).filter (keyedRow d "llm_calls") =
      [{ date := d, metric := "llm_calls", value := N }] := by
  induction N with
  | zero => omega
  | succ n ih =>
    rcases Nat.eq_or_lt_of_le hN with h1 | h1
    · have hn : n = 0 := by omega
      subst hn
      have hany : tbl.any (keyedRow d "llm_calls") = false := by
        rw [Bool.eq_false_iff]
        intro hc
        rcases List.any_eq_true.mp hc with ⟨r, hr, hkey⟩
        have : r ∈ tbl.filter (keyedRow d "llm_calls") := List.mem_filter.mpr ⟨hr, hkey⟩
        rw [h0] at this
        exact absurd this (List.not_mem_nil r)
      show (upsertAnalytics tbl d "llm_calls").filter (keyedRow d "llm_calls") = _
      unfold upsertAnalytics
      rw [if_neg (by simp [hany])]
      rw [List.filter_append, h0]
      simp [keyedRow]
    · have hn : 1 ≤ n := by omega
      have ihn := ih hn
      have hmem : ({ date := d, metric := "llm_calls", value := n } : AnalyticsRow) ∈
          insertLlmOutputs tbl d n := by
        have : ({ date := d, metric := "llm_calls", value := n } : AnalyticsRow) ∈
            (insertLlmOutputs tbl d n).filter (keyedRow d "llm_calls") := by
          rw [ihn]; exact List.mem_singleton.mpr rfl
        exact (List.mem_filter.mp this).1
      have hany : (insertLlmOutputs tbl d n).any (keyedRow d "llm_calls") = true :=
        List.any_eq_true.mpr ⟨_, hmem, by simp [keyedRow]⟩
      show (upsertAnalytics (insertLlmOutputs tbl d n) d "llm_calls").filter
          (keyedRow d "llm_calls") = _
      unfold upsertAnalytics
      rw [if_pos hany]
      rw [filter_upsert_map, ihn]
      rfl

/-- Witness for C9: three inserts into an empty table on date `0`. -/
theorem claimC9_witness :
    ([] : List AnalyticsRow).filter (keyedRow 0 "llm_calls") = [] ∧
    (insertLlmOutputs [] 0 3).filter (keyedRow 0 "llm_calls") =
      [{ date := 0, metric := "llm_calls", value := 3 }] :=
  ⟨rfl, claimC9_theorem [] 0 3 rfl (by omega)⟩

/-- Claim C6 (amended): on a non-success HTTP status every modeled client
function throws the translated message; that message is the server's `detail`
when the error body parses with a non-empty `detail`, the function's fixed
fallback when the body parses without one (absent or empty `detail`), and the
propagated JSON parse error's own message when the body is absent or
unparsable — because `await response.json()` is not guarded, its rejection
bypasses the `throw new Error(error.detail || fallback)` line. -/
theorem claimC6_theorem (resp : HttpResponse) (cbody : ChatResponse)
    (lbody : LawCompareResponse) (h : resp.ok = false) :
    chatWithPDFModel resp cbody =
      Except.error (apiThrownMessage resp.errorBody "Failed to get response") ∧
    compareLawSectionModel resp lbody =
      Except.error (apiThrownMessage resp.errorBody "Failed to compare law section") ∧
    (∀ d fb : String, d ≠ "" → apiThrownMessage (ErrorBody.parsed (some d)) fb = d) ∧
    (∀ fb : String, apiThrownMessage (ErrorBody.parsed none) fb = fb) ∧
    (∀ fb : String, apiThrownMessage (ErrorBody.parsed (some "")) fb = fb) ∧
    (∀ m fb : String, apiThrownMessage (ErrorBody.unparsable m) fb = m) := by
  refine ⟨?_, ?_, ?_, fun _ => rfl, fun _ => rfl, fun _ _ => rfl⟩
  · simp [chatWithPDFModel, h]
  · simp [compareLawSectionModel, h]
  · intro d fb hd
    simp [apiThrownMessage, hd]

/-- Witness for C6 at a concrete failing response with a parsed detail. -/
theorem claimC6_witness :
    ({ ok := false, errorBody := ErrorBody.parsed (some "Section not found") } :
        HttpResponse).ok = false ∧
    chatWithPDFModel { ok := false, errorBody := ErrorBody.parsed (some "Section not found") }
        { answer := "", success := false, law_comparisons := none } =
      Except.error "Section not found" :=
  ⟨rfl,
   (claimC6_theorem { ok := false, errorBody := ErrorBody.parsed (some "Section not found") }
      { answer := "", success := false, law_comparisons := none }
      { success := false, comparison := none, error := none } rfl).1⟩

/-- Counterexample to C6 as stated: a non-success response whose error body
is unparsable makes the client function reject with the JSON parse error's
message, not with the fixed fallback string the claim requires for an absent
or unparsable body. -/
theorem claimC6_counterexample :
    chatWithPDFModel
        { ok := false, errorBody := ErrorBody.unparsable "Unexpected end of JSON input" }
        { answer := "", success := false, law_comparisons := none } =
      Except.error "Unexpected end of JSON input" ∧
    "Unexpected end of JSON input" ≠ "Failed to get response" :=
  ⟨rfl, by decide⟩

/-- Claim C3 (amended): the law code always resolves to one of `CRPC`, `IEA`,
`IPC`; it defaults to `IPC` when none of the three occurs case-insensitively
DELIMITED BY WHITESPACE OR THE STRING EDGES (the delimitation of the source's
`/(?:^|\s)CODE(?:\s|$)/i` tests — strictly narrower than whole-word
matching, see `claimC3_counterexample`); and when a code does occur so
delimited it is chosen with precedence `CRPC`, then `IEA`, then `IPC`. -/
theorem claimC3_theorem (input : String) :
    (detectLawType input = "CRPC" ∨ detectLawType input = "IEA" ∨
      detectLawType input = "IPC") ∧
    (occursWS "CRPC" input = false → occursWS "IEA" input = false →
      occursWS "IPC" input = false → detectLawType input = "IPC") ∧
    (occursWS "CRPC" input = true → detectLawType input = "CRPC") ∧
    (occursWS "IEA" input = true → occursWS "CRPC" input = false →
      detectLawType input = "IEA") ∧
    (occursWS "IPC" input = true → occursWS "CRPC" input = false →
      occursWS "IEA" input = false → detectLawType input = "IPC") := by
  refine ⟨?_, ?_, ?_, ?_, ?_⟩
  · unfold detectLawType
    by_cases h1 : occursWS "CRPC" input = true
    · simp [h1]
    · by_cases h2 : occursWS "IEA" input = true
      · simp [h1, h2]
      · by_cases h3 : occursWS "IPC" input = true <;> simp [h1, h2, h3]
  · intro h1 h2 h3
    simp [detectLawType, h1, h2, h3]
  · intro h1
    simp [detectLawType, h1]
  · intro h1 h2
    simp [detectLawType, h1, h2]
  · intro h1 h2 h3
    simp [detectLawType, h1, h2, h3]

/-- Witness for C3: lowercase `crpc` resolves to `CRPC`; an input containing
no code defaults to `IPC`. -/
theorem claimC3_witness :
    occursWS "CRPC" "crpc 154 156" = true ∧ detectLawType "crpc 154 156" = "CRPC" ∧
    detectLawType "154" = "IPC" :=
  ⟨by decide, ( claimC3_theorem "crpc 154 156").2.2.1 (by decide),
   ( claimC3_theorem "154").2.1 (by decide) (by decide) (by decide)⟩

/-- Counterexample to C3 as stated: in `"CRPC, 154"` the token `CRPC` occurs
case-insensitively as a whole word (the comma is a word boundary), yet the
source's whitespace-delimited test `/(?:^|\s)(CRPC|CrPC)(?:\s|$)/i` fails on
it — the comma is not whitespace — so the code resolves the law code to the
default `IPC`, not to `CRPC` as the claim requires. -/
theorem claimC3_counterexample :
    occursWholeWord "CRPC" "CRPC, 154" = true ∧
    detectLawType "CRPC, 154" = "IPC" ∧
    ("IPC" : String) ≠ "CRPC" :=
  ⟨by decide, by decide, by decide⟩

theorem appendsOf_calls (lt : String) (secs : List String) :
    appendsOf (secs.map fun sec => Ev.call (CallRec.lawCompare lt sec)) = [] := by
  induction secs with
  | nil => rfl
  | cons a r ih => simp [appendsOf, ih]

theorem handleSendBody_law (env : ApiEnv) (s : ChatState)
    (hmode : s.chatMode = ChatMode.LAW_COMPARISON) (hsecs : secsOf s ≠ []) :
    appendsOf (handleSendBody env s) =
      appendsOf (displayEvents (ltOf s) (secsOf s) (compsOf env s) (nfOf env s)) := by
  have h0 : ¬((secsOf s).length = 0) := by rw [List.length_eq_zero]; exact hsecs
  simp only [handleSendBody, hmode]
  rw [if_neg h0]
  rw [appendsOf_append, appendsOf_calls]
  rfl

theorem appended_law (env : ApiEnv) (s : ChatState)
    (hmode : s.chatMode = ChatMode.LAW_COMPARISON)
    (hguard : ¬(jsTrimS s.input = "" ∨ s.isLoading = true))
    (hsecs : secsOf s ≠ []) :
    appendedMessages env s =
      renderFrom s.nextId (userData s.input ::
        appendsOf (displayEvents (ltOf s) (secsOf s) (compsOf env s) (nfOf env s))) := by
  rw [appendedMessages_eq env s hguard]
  unfold renderFrom
  rw [handleSendBody_law env s hmode hsecs]

theorem displayEvents_appends (lt : String) (secs : List String)
    (comps : List LawComparison) (nf : List String) (hc : comps ≠ []) :
    appendsOf (displayEvents lt secs comps nf) =
      { role := "assistant", content := compContent lt secs comps, mtype := "comparisons",
        law_comparisons := some comps, cases := none } ::
        (if nf.length > 0 then
          [{ role := "assistant", content := nfContent lt nf, mtype := "text",
             law_comparisons := none, cases := none }]
         else []) := by
  unfold displayEvents
  rw [if_pos (by cases comps with | nil => exact absurd rfl hc | cons a r => simp)]
  by_cases hn : nf.length > 0
  · rw [if_pos hn, if_pos hn]
    simp [appendsOf]
  · rw [if_neg hn, if_neg hn]
    simp [appendsOf]

theorem displayEvents_appends_none (lt : String) (secs : List String) (nf : List String) :
    appendsOf (displayEvents lt secs [] nf) =
      [{ role := "assistant", content := failContent lt secs, mtype := "text",
         law_comparisons := none, cases := none }] := by
  unfold displayEvents
  rw [if_neg (by simp)]
  simp [appendsOf]

/-- Claim C4: for a LAW_COMPARISON submission with at least one section
extracted, when at least one comparison was found and at least one section
was not, exactly two assistant messages follow the user's message — the
`comparisons`-tagged message carrying all found comparisons, then one warning
whose content lists exactly the not-found tokens, comma-joined, in extraction
order; and when no comparison was found, a single failure message listing all
requested tokens follows, with no `comparisons`-tagged message appended. -/
theorem claimC4_theorem (env : ApiEnv) (s : ChatState)
    (hmode : s.chatMode = ChatMode.LAW_COMPARISON)
    (hguard : ¬(jsTrimS s.input = "" ∨ s.isLoading = true))
    (hsecs : secsOf s ≠ []) :
    (compsOf env s ≠ [] → nfOf env s ≠ [] →
      appendedMessages env s =
        [ mkMsg s.nextId (userData s.input),
          mkMsg (s.nextId + 1)
            { role := "assistant", content := compContent (ltOf s) (secsOf s) (compsOf env s),
              mtype := "comparisons", law_comparisons := some (compsOf env s), cases := none },
          mkMsg (s.nextId + 2)
            { role := "assistant", content := nfContent (ltOf s) (nfOf env s),
              mtype := "text", law_comparisons := none, cases := none } ] ∧
      nfContent (ltOf s) (nfOf env s) =
        "⚠️ Note: No comparison data found for " ++ ltOf s ++ " section" ++
          (if (nfOf env s).length > 1 then "s" else "") ++ ": " ++
          String.intercalate ", " (nfOf env s)) ∧
    (compsOf env s = [] →
      appendedMessages env s =
        [ mkMsg s.nextId (userData s.input),
          mkMsg (s.nextId + 1)
            { role := "assistant", content := failContent (ltOf s) (secsOf s),
              mtype := "text", law_comparisons := none, cases := none } ] ∧
      (∀ m ∈ appendedMessages env s, m.mtype ≠ "comparisons") ∧
      failContent (ltOf s) (secsOf s) =
        "❌ No comparison data found for " ++ ltOf s ++ " section" ++
          (if (secsOf s).length > 1 then "s" else "") ++ ": " ++
          String.intercalate ", " (secsOf s) ++ ". Please check the section numbers.") := by
  constructor
  · intro hc hn
    refine ⟨?_, rfl⟩
    rw [appended_law env s hmode hguard hsecs]
    rw [displayEvents_appends (ltOf s) (secsOf s) (compsOf env s) (nfOf env s) hc]
    rw [if_pos (by cases h : nfOf env s with
      | nil => exact absurd h hn
      | cons a r => simp [h])]
    rfl
  · intro hc
    have happ : appendedMessages env s =
        [ mkMsg s.nextId (userData s.input),
          mkMsg (s.nextId + 1)
            { role := "assistant", content := failContent (ltOf s) (secsOf s),
              mtype := "text", law_comparisons := none, cases := none } ] := by
      rw [appended_law env s hmode hguard hsecs, hc]
      rw [displayEvents_appends_none (ltOf s) (secsOf s) (nfOf env s)]
      rfl
    refine ⟨happ, ?_, rfl⟩
    intro m hm
    rw [happ] at hm
    rcases List.mem_cons.mp hm with h1 | h1
    · subst h1; simp [mkMsg, userData]
    · rcases List.mem_cons.mp h1 with h2 | h2
      · subst h2; simp [mkMsg]
      · exact absurd h2 (List.not_mem_nil m)

/-- Witness for C4: the mixed scenario (section 376 found, 302 not) and the
all-fail scenario, both at the concrete submission `"IPC 302 376"`. -/
theorem claimC4_witness :
    (appendedMessages envOnly376 stTwoSecs).length = 3 ∧
    (appendedMessages envAllThrow stTwoSecs).length = 2 ∧
    (∀ m ∈ appendedMessages envAllThrow stTwoSecs, m.mtype ≠ "comparisons") :=
  ⟨by rw [((claimC4_theorem envOnly376 stTwoSecs rfl (by decide) (by decide)).1
      (by decide) (by decide)).1]; rfl,
   by rw [((claimC4_theorem envAllThrow stTwoSecs rfl (by decide) (by decide)).2
      (by decide)).1]; rfl,
   ((claimC4_theorem envAllThrow stTwoSecs rfl (by decide) (by decide)).2 (by decide)).2.1⟩

/-- Claim C1 (amended): the single appended `comparisons`-tagged message has
content `"Comparison for {code} Section {firstSection}:"` (with
`firstSection` the FIRST EXTRACTED section, found or not) exactly when the
number of comparisons FOUND is one, and
`"Found {n} comparisons for {code} sections:"` (n the number found) whenever
more than one comparison was found.  (The source branches on
`comparisons.length`, not on the number of sections requested.) -/
theorem claimC1_theorem (env : ApiEnv) (s : ChatState)
    (hmode : s.chatMode = ChatMode.LAW_COMPARISON)
    (hguard : ¬(jsTrimS s.input = "" ∨ s.isLoading = true))
    (hsecs : secsOf s ≠ [])
    (hfound : compsOf env s ≠ []) :
    (appendedMessages env s).filter (fun m => m.mtype == "comparisons") =
      [ mkMsg (s.nextId + 1)
          { role := "assistant", content := compContent (ltOf s) (secsOf s) (compsOf env s),
            mtype := "comparisons", law_comparisons := some (compsOf env s), cases := none } ] ∧
    ((compsOf env s).length = 1 →
      compContent (ltOf s) (secsOf s) (compsOf env s) =
        "Comparison for " ++ ltOf s ++ " Section " ++ (secsOf s).headD "" ++ ":") ∧
    (1 < (compsOf env s).length →
      compContent (ltOf s) (secsOf s) (compsOf env s) =
        "Found " ++ toString (compsOf env s).length ++ " comparisons for " ++ ltOf s ++
          " sections:") := by
  have htex : (("text" : String) == "comparisons") = false := by decide
  have hcmp : (("comparisons" : String) == "comparisons") = true := by decide
  refine ⟨?_, ?_, ?_⟩
  · rw [appended_law env s hmode hguard hsecs,
        displayEvents_appends (ltOf s) (secsOf s) (compsOf env s) (nfOf env s) hfound]
    by_cases hn : (nfOf env s).length > 0
    · rw [if_pos hn]
      simp [renderFrom, mkMsg, userData, List.filter_cons, htex, hcmp]
    · rw [if_neg hn]
      simp [renderFrom, mkMsg, userData, List.filter_cons, htex, hcmp]
  · intro h1
    unfold compContent
    rw [if_pos h1]
  · intro h2
    unfold compContent
    rw [if_neg (by omega), if_pos h2]
    simp only [String.append_assoc]
    rfl

/-- Witness for C1 (amended) at a concrete submission where both lookups
succeed: two comparisons found, so the count form is used. -/
theorem claimC1_witness :
    compsOf envAllFound stTwoSecs ≠ [] ∧
    (appendedMessages envAllFound stTwoSecs).filter (fun m => m.mtype == "comparisons") =
      [ { id := 1, role := "assistant", content := "Found 2 comparisons for IPC sections:",
          mtype := "comparisons", law_comparisons := some [cmp302, cmp302], cases := none } ] :=
  ⟨by decide,
   by
    rw [(claimC1_theorem envAllFound stTwoSecs rfl (by decide) (by decide) (by decide)).1]
    decide⟩

/-- Counterexample to C1 as stated: submitting `"IPC 302 376"` (two sections
requested) against a backend where only the lookup for `376` succeeds, the
appended `comparisons`-tagged message carries the single-section form —
naming section `302`, whose lookup failed — although the claim requires the
`"Found {n} comparisons ..."` form whenever more than one section was
requested.  The source branches on the number of comparisons found
(`comparisons.length === 1`) and interpolates `sectionNumbers[0]`. -/
theorem claimC1_counterexample :
    (secsOf stTwoSecs).length = 2 ∧
    (appendedMessages envOnly376 stTwoSecs).filter (fun m => m.mtype == "comparisons") =
      [ { id := 1, role := "assistant", content := "Comparison for IPC Section 302:",
          mtype := "comparisons", law_comparisons := some [cmp376], cases := none } ] ∧
    "Comparison for IPC Section 302:" ≠ "Found 1 comparisons for IPC sections:" ∧
    "Comparison for IPC Section 302:" ≠ "Found 1 comparison for IPC sections:" :=
  ⟨by decide, by decide, by decide, by decide⟩

/-! ## Lemmas for the section-extraction refinement (claim C2)

The goal is `extractIntervals s = specIntervalsB s`: the left-to-right
regex scan produces exactly the maximal boundary-delimited occurrences of
the pattern, in order.  We first develop character-class facts, indexed
access, digit runs and slices, then characterize `patP` on slices, then
`matchEndAt`, then the scan. -/

theorem isDigitC_spec (c : Char) : isDigitC c = true ↔ '0' ≤ c ∧ c ≤ '9' := by
  simp [isDigitC]

theorem isLetterC_spec (c : Char) :
    isLetterC c = true ↔ ('A' ≤ c ∧ c ≤ 'Z') ∨ ('a' ≤ c ∧ c ≤ 'z') := by
  simp [isLetterC]

theorem letter_not_digit (c : Char) (h : isLetterC c = true) : isDigitC c = false := by
  rcases (isLetterC_spec c).mp h with ⟨h1, h2⟩ | ⟨h1, h2⟩ <;>
  · rw [Bool.eq_false_iff]
    intro hd
    rcases (isDigitC_spec c).mp hd with ⟨h3, h4⟩
    have := le_trans h1 h4
    revert this
    decide

theorem dash_not_digit : isDigitC '-' = false := by decide

theorem letter_not_dash (c : Char) (h : isLetterC c = true) : (c == '-') = false := by
  rw [Bool.eq_false_iff]
  intro hc
  rw [beq_iff_eq] at hc
  subst hc
  revert h
  decide

theorem digit_word (c : Char) (h : isDigitC c = true) : isWordC c = true := by
  simp [isWordC, h]

theorem letter_word (c : Char) (h : isLetterC c = true) : isWordC c = true := by
  simp [isWordC, h]

theorem chAt_cons_zero (c : Char) (r : List Char) : chAt (c :: r) 0 = c := rfl

theorem chAt_cons_succ (c : Char) (r : List Char) (n : Nat) :
    chAt (c :: r) (n + 1) = chAt r n := rfl

theorem chAt_nil (i : Nat) : chAt [] i = ' ' := by cases i <;> rfl

theorem chAt_out (s : List Char) (i : Nat) (h : s.length ≤ i) : chAt s i = ' ' := by
  induction s generalizing i with
  | nil => exact chAt_nil i
  | cons c r ih =>
    cases i with
    | zero => simp at h
    | succ n =>
      rw [chAt_cons_succ]
      exact ih n (by simpa using h)

theorem wAt_lt (s : List Char) (i : Nat) (h : wAt s i = true) : i < s.length := by
  by_contra hc
  rw [wAt, chAt_out s i (by omega)] at h
  revert h
  decide

theorem digitAt_lt (s : List Char) (i : Nat) (h : isDigitC (chAt s i) = true) :
    i < s.length := by
  by_contra hc
  rw [chAt_out s i (by omega)] at h
  revert h
  decide

theorem letterAt_lt (s : List Char) (i : Nat) (h : letterAt s i = true) : i < s.length := by
  by_contra hc
  rw [letterAt, chAt_out s i (by omega)] at h
  revert h
  decide

theorem dashAt_lt (s : List Char) (i : Nat) (h : dashAt s i = true) : i < s.length := by
  by_contra hc
  rw [dashAt, chAt_out s i (by omega)] at h
  revert h
  decide

theorem chAt_drop (i : Nat) (s : List Char) (k : Nat) :
    chAt (s.drop i) k = chAt s (i + k) := by
  induction i generalizing s with
  | zero => simp [List.drop]
  | succ m ih =>
    cases s with
    | nil => simp [List.drop, chAt_nil]
    | cons c r =>
      show chAt (r.drop m) k = chAt (c :: r) (m + 1 + k)
      rw [ih r]
      have : m + 1 + k = (m + k) + 1 := by omega
      rw [this, chAt_cons_succ]

theorem drop_cons_chAt (s : List Char) (i : Nat) (h : i < s.length) :
    s.drop i = chAt s i :: s.drop (i + 1) := by
  induction s generalizing i with
  | nil => simp at h
  | cons c r ih =>
    cases i with
    | zero => rfl
    | succ m =>
      show r.drop m = chAt (c :: r) (m + 1) :: r.drop (m + 1)
      rw [chAt_cons_succ]
      exact ih m (by simpa using h)

theorem digitCount_le_length (l : List Char) : digitCount l ≤ l.length := by
  induction l with
  | nil => simp [digitCount]
  | cons c r ih =>
    rw [digitCount]
    by_cases h : isDigitC c = true
    · rw [if_pos h]; simpa using ih
    · rw [if_neg h]; simp

theorem digitCount_digit (l : List Char) (k : Nat) (h : k < digitCount l) :
    isDigitC (chAt l k) = true := by
  induction l generalizing k with
  | nil => simp [digitCount] at h
  | cons c r ih =>
    rw [digitCount] at h
    by_cases hc : isDigitC c = true
    · rw [if_pos hc] at h
      cases k with
      | zero => rwa [chAt_cons_zero]
      | succ m =>
        rw [chAt_cons_succ]
        exact ih m (by omega)
    · rw [if_neg hc] at h
      omega

theorem digitCount_stop (l : List Char) (h : digitCount l < l.length) :
    isDigitC (chAt l (digitCount l)) = false := by
  induction l with
  | nil => simp [digitCount] at h
  | cons c r ih =>
    rw [digitCount] at h ⊢
    by_cases hc : isDigitC c = true
    · rw [if_pos hc] at h ⊢
      rw [chAt_cons_succ]
      exact ih (by simpa using h)
    · rw [if_neg hc] at h ⊢
      rw [chAt_cons_zero]
      exact Bool.eq_false_iff.mpr hc

theorem digitCount_max (l : List Char) (m : Nat)
    (h : ∀ k, k < m → isDigitC (chAt l k) = true) : m ≤ digitCount l := by
  induction l generalizing m with
  | nil =>
    cases m with
    | zero => simp
    | succ p =>
      have := h 0 (by omega)
      rw [chAt_nil] at this
      exact absurd this (by decide)
  | cons c r ih =>
    cases m with
    | zero => simp
    | succ p =>
      have hc : isDigitC c = true := by
        have := h 0 (by omega)
        rwa [chAt_cons_zero] at this
      rw [digitCount, if_pos hc]
      have : p ≤ digitCount r := by
        apply ih
        intro k hk
        have := h (k + 1) (by omega)
        rwa [chAt_cons_succ] at this
      omega

theorem digitCount_eq (l : List Char) (m : Nat)
    (h1 : ∀ k, k < m → isDigitC (chAt l k) = true)
    (h2 : isDigitC (chAt l m) = false) : digitCount l = m := by
  have hle : digitCount l ≤ m := by
    by_contra hc
    have := digitCount_digit l m (by omega)
    rw [this] at h2
    exact absurd h2 (by decide)
  have hge : m ≤ digitCount l := digitCount_max l m h1
  omega

theorem digitRun_le (s : List Char) (i : Nat) : digitRun s i ≤ s.length - i := by
  have := digitCount_le_length (s.drop i)
  rwa [List.length_drop] at this

theorem digitRun_digit (s : List Char) (i k : Nat) (h : k < digitRun s i) :
    isDigitC (chAt s (i + k)) = true := by
  have := digitCount_digit (s.drop i) k h
  rwa [chAt_drop] at this

theorem digitRun_stop (s : List Char) (i : Nat) (h : i + digitRun s i < s.length) :
    isDigitC (chAt s (i + digitRun s i)) = false := by
  have hlt : digitCount (s.drop i) < (s.drop i).length := by
    rw [List.length_drop]
    show digitRun s i < s.length - i
    omega
  have := digitCount_stop (s.drop i) hlt
  rwa [chAt_drop] at this

theorem matchDigit_run_pos (s : List Char) (i : Nat) (h : isDigitC (chAt s i) = true) :
    0 < digitRun s i := by
  have hi : i < s.length := digitAt_lt s i h
  rw [digitRun, drop_cons_chAt s i hi, digitCount, if_pos h]
  omega

theorem slice_length (s : List Char) (i j : Nat) (hjn : j ≤ s.length) :
    (slice s i j).length = j - i := by
  rw [slice, List.length_take, List.length_drop]
  omega

theorem chAt_take (m : Nat) (l : List Char) (k : Nat) (h : k < m) :
    chAt (l.take m) k = chAt l k := by
  induction m generalizing l k with
  | zero => omega
  | succ p ih =>
    cases l with
    | nil => simp [chAt_nil]
    | cons c r =>
      cases k with
      | zero => rfl
      | succ q =>
        show chAt (r.take p) q = chAt (c :: r) (q + 1)
        rw [chAt_cons_succ]
        exact ih r q (by omega)

theorem chAt_slice (s : List Char) (i j k : Nat) (h : k < j - i) :
    chAt (slice s i j) k = chAt s (i + k) := by
  rw [slice, chAt_take (j - i) (s.drop i) k h, chAt_drop]

theorem drop_take_my (m : Nat) (n : Nat) (l : List Char) :
    (l.take n).drop m = (l.drop m).take (n - m) := by
  induction m generalizing n l with
  | zero => simp
  | succ p ih =>
    cases l with
    | nil => simp
    | cons c r =>
      cases n with
      | zero => simp
      | succ q =>
        show (r.take q).drop p = (r.drop p).take (q + 1 - (p + 1))
        rw [ih q r]
        have : q + 1 - (p + 1) = q - p := by omega
        rw [this]

theorem drop_add (i : Nat) (l : List Char) (m : Nat) :
    (l.drop i).drop m = l.drop (i + m) := by
  induction i generalizing l with
  | zero => simp
  | succ p ih =>
    cases l with
    | nil => simp
    | cons c r =>
      show (r.drop p).drop m = (c :: r).drop (p + 1 + m)
      rw [ih r]
      have : p + 1 + m = (p + m) + 1 := by omega
      rw [this]
      rfl

theorem slice_drop (s : List Char) (i j m : Nat) :
    (slice s i j).drop m = slice s (i + m) j := by
  rw [slice, slice, drop_take_my, drop_add]
  have : j - i - m = j - (i + m) := by omega
  rw [this]

theorem slice_nil (s : List Char) (i j : Nat) (h : j ≤ i) : slice s i j = [] := by
  rw [slice, Nat.sub_eq_zero_of_le h, List.take_zero]

theorem slice_one (s : List Char) (a : Nat) (h : a < s.length) :
    slice s a (a + 1) = [chAt s a] := by
  rw [slice, drop_cons_chAt s a h]
  have : a + 1 - a = 1 := by omega
  rw [this]
  rfl

theorem slice_two (s : List Char) (a : Nat) (h : a + 1 < s.length) :
    slice s a (a + 2) = [chAt s a, chAt s (a + 1)] := by
  rw [slice, drop_cons_chAt s a (by omega), drop_cons_chAt s (a + 1) h]
  have : a + 2 - a = 2 := by omega
  rw [this]
  rfl

theorem slice_three (s : List Char) (a : Nat) (h : a + 2 < s.length) :
    slice s a (a + 3) = [chAt s a, chAt s (a + 1), chAt s (a + 2)] := by
  rw [slice, drop_cons_chAt s a (by omega), drop_cons_chAt s (a + 1) (by omega),
    drop_cons_chAt s (a + 2) h]
  have : a + 3 - a = 3 := by omega
  rw [this]
  rfl

theorem patTail_big (a b c e : Char) (r : List Char) :
    patTail (a :: b :: c :: e :: r) = false := rfl

theorem digitCount_slice_small (s : List Char) (i j : Nat) (hij : i < j)
    (hjd : j ≤ i + digitRun s i) (hjn : j ≤ s.length) :
    digitCount (slice s i j) = j - i := by
  apply digitCount_eq
  · intro k hk
    rw [chAt_slice s i j k hk]
    exact digitRun_digit s i k (by omega)
  · rw [chAt_out _ _ (le_of_eq (slice_length s i j hjn))]
    decide

theorem digitCount_slice_big (s : List Char) (i j : Nat) (hjn : j ≤ s.length)
    (hd : i + digitRun s i < j) :
    digitCount (slice s i j) = digitRun s i := by
  apply digitCount_eq
  · intro k hk
    rw [chAt_slice s i j k (by omega)]
    exact digitRun_digit s i k hk
  · rw [chAt_slice s i j (digitRun s i) (by omega)]
    exact digitRun_stop s i (by omega)

theorem patP_slice_cases (s : List Char) (i j : Nat) (hij : i < j) (hjn : j ≤ s.length)
    (hp : patP (slice s i j) = true) :
    1 ≤ digitRun s i ∧
      (j ≤ i + digitRun s i ∨
        (j = i + digitRun s i + 1 ∧ letterAt s (i + digitRun s i) = true) ∨
        (j = i + digitRun s i + 2 ∧ dashAt s (i + digitRun s i) = true ∧
          letterAt s (i + digitRun s i + 1) = true) ∨
        (j = i + digitRun s i + 3 ∧ letterAt s (i + digitRun s i) = true ∧
          dashAt s (i + digitRun s i + 1) = true ∧
          letterAt s (i + digitRun s i + 2) = true)) := by
  by_cases hsmall : j ≤ i + digitRun s i
  · exact ⟨by omega, Or.inl hsmall⟩
  · push_neg at hsmall
    have hdc := digitCount_slice_big s i j hjn hsmall
    unfold patP at hp
    rw [hdc, slice_drop] at hp
    rw [Bool.and_eq_true] at hp
    obtain ⟨hp1, hp2⟩ := hp
    have hd1 : 1 ≤ digitRun s i := by
      rw [decide_eq_true_iff] at hp1
      omega
    refine ⟨hd1, ?_⟩
    by_cases h1 : j = i + digitRun s i + 1
    · rw [h1, slice_one s (i + digitRun s i) (by omega)] at hp2
      exact Or.inr (Or.inl ⟨h1, hp2⟩)
    · by_cases h2 : j = i + digitRun s i + 2
      · rw [h2, slice_two s (i + digitRun s i) (by omega)] at hp2
        rw [show patTail [chAt s (i + digitRun s i), chAt s (i + digitRun s i + 1)] =
          ((chAt s (i + digitRun s i) == '-') && isLetterC (chAt s (i + digitRun s i + 1)))
          from rfl] at hp2
        rw [Bool.and_eq_true] at hp2
        exact Or.inr (Or.inr (Or.inl ⟨h2, hp2.1, hp2.2⟩))
      · by_cases h3 : j = i + digitRun s i + 3
        · rw [h3, slice_three s (i + digitRun s i) (by omega)] at hp2
          rw [show patTail [chAt s (i + digitRun s i), chAt s (i + digitRun s i + 1),
              chAt s (i + digitRun s i + 2)] =
            (isLetterC (chAt s (i + digitRun s i)) &&
              (chAt s (i + digitRun s i + 1) == '-') &&
              isLetterC (chAt s (i + digitRun s i + 2))) from rfl] at hp2
          rw [Bool.and_eq_true, Bool.and_eq_true] at hp2
          exact Or.inr (Or.inr (Or.inr ⟨h3, hp2.1.1, hp2.1.2, hp2.2⟩))
        · exfalso
          have hlen : 4 ≤ (slice s (i + digitRun s i) j).length := by
            rw [slice_length s (i + digitRun s i) j hjn]
            omega
          rcases hsl : slice s (i + digitRun s i) j with _ | ⟨a, _ | ⟨b, _ | ⟨c, _ | ⟨e, r⟩⟩⟩⟩ <;>
            rw [hsl] at hlen hp2 <;> simp at hlen
          rw [patTail_big] at hp2
          exact absurd hp2 (by decide)

theorem patP_slice_digits (s : List Char) (i j : Nat) (hij : i < j)
    (hjd : j ≤ i + digitRun s i) (hjn : j ≤ s.length) :
    patP (slice s i j) = true := by
  unfold patP
  rw [digitCount_slice_small s i j hij hjd hjn, slice_drop]
  have : i + (j - i) = j := by omega
  rw [this, slice_nil s j j (le_refl j)]
  rw [Bool.and_eq_true]
  refine ⟨by rw [decide_eq_true_iff]; omega, rfl⟩

theorem patP_slice_tail1 (s : List Char) (i : Nat) (hd : 1 ≤ digitRun s i)
    (hl : letterAt s (i + digitRun s i) = true)
    (hjn : i + digitRun s i + 1 ≤ s.length) :
    patP (slice s i (i + digitRun s i + 1)) = true := by
  unfold patP
  rw [digitCount_slice_big s i (i + digitRun s i + 1) hjn (by omega), slice_drop]
  rw [slice_one s (i + digitRun s i) (by omega)]
  rw [Bool.and_eq_true]
  exact ⟨by rw [decide_eq_true_iff]; omega, hl⟩

theorem patP_slice_tail2 (s : List Char) (i : Nat) (hd : 1 ≤ digitRun s i)
    (hdash : dashAt s (i + digitRun s i) = true)
    (hl : letterAt s (i + digitRun s i + 1) = true)
    (hjn : i + digitRun s i + 2 ≤ s.length) :
    patP (slice s i (i + digitRun s i + 2)) = true := by
  unfold patP
  rw [digitCount_slice_big s i (i + digitRun s i + 2) hjn (by omega), slice_drop]
  rw [slice_two s (i + digitRun s i) (by omega)]
  rw [show patTail [chAt s (i + digitRun s i), chAt s (i + digitRun s i + 1)] =
    ((chAt s (i + digitRun s i) == '-') && isLetterC (chAt s (i + digitRun s i + 1)))
    from rfl]
  rw [Bool.and_eq_true, Bool.and_eq_true]
  exact ⟨by rw [decide_eq_true_iff]; omega, hdash, hl⟩

theorem patP_slice_tail3 (s : List Char) (i : Nat) (hd : 1 ≤ digitRun s i)
    (hl1 : letterAt s (i + digitRun s i) = true)
    (hdash : dashAt s (i + digitRun s i + 1) = true)
    (hl2 : letterAt s (i + digitRun s i + 2) = true)
    (hjn : i + digitRun s i + 3 ≤ s.length) :
    patP (slice s i (i + digitRun s i + 3)) = true := by
  unfold patP
  rw [digitCount_slice_big s i (i + digitRun s i + 3) hjn (by omega), slice_drop]
  rw [slice_three s (i + digitRun s i) (by omega)]
  rw [show patTail [chAt s (i + digitRun s i), chAt s (i + digitRun s i + 1),
      chAt s (i + digitRun s i + 2)] =
    (isLetterC (chAt s (i + digitRun s i)) && (chAt s (i + digitRun s i + 1) == '-') &&
      isLetterC (chAt s (i + digitRun s i + 2))) from rfl]
  simp only [Bool.and_eq_true]
  exact ⟨by rw [decide_eq_true_iff]; omega, ⟨hl1, hdash⟩, hl2⟩

theorem bAt_inner_run (s : List Char) (i k : Nat) (hk1 : i < k)
    (hk2 : k < i + digitRun s i) : bAt s k = false := by
  cases k with
  | zero => omega
  | succ m =>
    have hm : isDigitC (chAt s m) = true := by
      have heq : m = i + (m - i) := by omega
      rw [heq]
      exact digitRun_digit s i (m - i) (by omega)
    have hk : isDigitC (chAt s (m + 1)) = true := by
      have heq : m + 1 = i + (m + 1 - i) := by omega
      rw [heq]
      exact digitRun_digit s i (m + 1 - i) (by omega)
    show (wAt s m != wAt s (m + 1)) = false
    unfold wAt
    rw [digit_word (chAt s m) hm, digit_word (chAt s (m + 1)) hk]
    rfl

theorem pmatch_no_inner (s : List Char) (i j : Nat) (hij : i < j) (hjn : j ≤ s.length)
    (hp : patP (slice s i j) = true) (k : Nat) (hk1 : i < k) (hk2 : k < j)
    (hb : bAt s k = true) (hdk : isDigitC (chAt s k) = true) : False := by
  obtain ⟨hd, hcases⟩ := patP_slice_cases s i j hij hjn hp
  by_cases hkd : k < i + digitRun s i
  · rw [bAt_inner_run s i k hk1 hkd] at hb
    exact absurd hb (by decide)
  · push_neg at hkd
    rcases hcases with h | ⟨he, hl⟩ | ⟨he, hdash, hl⟩ | ⟨he, hl1, hdash, hl2⟩
    · omega
    · have hk : k = i + digitRun s i := by omega
      rw [hk] at hdk
      have hl2 : isLetterC (chAt s (i + digitRun s i)) = true := hl
      rw [letter_not_digit _ hl2] at hdk
      exact absurd hdk (by decide)
    · have hk : k = i + digitRun s i ∨ k = i + digitRun s i + 1 := by omega
      rcases hk with hk | hk
      · rw [hk] at hdk
        have hds : chAt s (i + digitRun s i) = '-' := by
          have hd2 : (chAt s (i + digitRun s i) == '-') = true := hdash
          rwa [beq_iff_eq] at hd2
        rw [hds] at hdk
        exact absurd hdk (by decide)
      · rw [hk] at hdk
        have hl2 : isLetterC (chAt s (i + digitRun s i + 1)) = true := hl
        rw [letter_not_digit _ hl2] at hdk
        exact absurd hdk (by decide)
    · have hk : k = i + digitRun s i ∨ k = i + digitRun s i + 1 ∨
          k = i + digitRun s i + 2 := by omega
      rcases hk with hk | hk | hk
      · rw [hk] at hdk
        have hl3 : isLetterC (chAt s (i + digitRun s i)) = true := hl1
        rw [letter_not_digit _ hl3] at hdk
        exact absurd hdk (by decide)
      · rw [hk] at hdk
        have hds : chAt s (i + digitRun s i + 1) = '-' := by
          have hd2 : (chAt s (i + digitRun s i + 1) == '-') = true := hdash
          rwa [beq_iff_eq] at hd2
        rw [hds] at hdk
        exact absurd hdk (by decide)
      · rw [hk] at hdk
        have hl3 : isLetterC (chAt s (i + digitRun s i + 2)) = true := hl2
        rw [letter_not_digit _ hl3] at hdk
        exact absurd hdk (by decide)

theorem matchEndAt_d0 (s : List Char) (i : Nat) (h : digitRun s i = 0) :
    matchEndAt s i = none := by
  simp [matchEndAt, h]

theorem matchEndAt_digit (s : List Char) (i j : Nat) (hm : matchEndAt s i = some j) :
    isDigitC (chAt s i) = true := by
  by_cases h : digitRun s i = 0
  · rw [matchEndAt_d0 s i h] at hm
    exact absurd hm (by simp)
  · simpa using digitRun_digit s i 0 (by omega)

theorem matchEndAt_bounds (s : List Char) (i j : Nat) (hm : matchEndAt s i = some j) :
    i < j ∧ j ≤ s.length := by
  unfold matchEndAt at hm
  split_ifs at hm with hc0 hc1 hc2 hc3 hc4
  · simp only [Bool.and_eq_true] at hc1
    obtain ⟨⟨⟨hl1, hdash⟩, hl2⟩, hbj⟩ := hc1
    injection hm with hj
    have := letterAt_lt s (i + digitRun s i + 2) hl2
    omega
  · simp only [Bool.and_eq_true] at hc2
    obtain ⟨hl, hbj⟩ := hc2
    injection hm with hj
    have := letterAt_lt s (i + digitRun s i) hl
    omega
  · simp only [Bool.and_eq_true] at hc3
    obtain ⟨⟨hdash, hl⟩, hbj⟩ := hc3
    injection hm with hj
    have := letterAt_lt s (i + digitRun s i + 1) hl
    omega
  · injection hm with hj
    have := digitRun_le s i
    omega

theorem matchEndAt_isBMatch (s : List Char) (i j : Nat) (hb : bAt s i = true)
    (hm : matchEndAt s i = some j) : PBmatchAt s i j := by
  have hbounds := matchEndAt_bounds s i j hm
  unfold matchEndAt at hm
  split_ifs at hm with hc0 hc1 hc2 hc3 hc4
  · simp only [Bool.and_eq_true] at hc1
    obtain ⟨⟨⟨hl1, hdash⟩, hl2⟩, hbj⟩ := hc1
    injection hm with hj
    subst hj
    refine ⟨⟨hbounds.1, hbounds.2, ?_⟩, hb, hbj⟩
    exact patP_slice_tail3 s i (by omega) hl1 hdash hl2
      (by have := letterAt_lt s (i + digitRun s i + 2) hl2; omega)
  · simp only [Bool.and_eq_true] at hc2
    obtain ⟨hl, hbj⟩ := hc2
    injection hm with hj
    subst hj
    refine ⟨⟨hbounds.1, hbounds.2, ?_⟩, hb, hbj⟩
    exact patP_slice_tail1 s i (by omega) hl
      (by have := letterAt_lt s (i + digitRun s i) hl; omega)
  · simp only [Bool.and_eq_true] at hc3
    obtain ⟨⟨hdash, hl⟩, hbj⟩ := hc3
    injection hm with hj
    subst hj
    refine ⟨⟨hbounds.1, hbounds.2, ?_⟩, hb, hbj⟩
    exact patP_slice_tail2 s i (by omega) hdash hl
      (by have := letterAt_lt s (i + digitRun s i + 1) hl; omega)
  · injection hm with hj
    subst hj
    refine ⟨⟨hbounds.1, hbounds.2, ?_⟩, hb, hc4⟩
    exact patP_slice_digits s i (i + digitRun s i) (by omega) (le_refl _) hbounds.2

theorem matchEndAt_max (s : List Char) (i j : Nat) (hm : matchEndAt s i = some j)
    (j2 : Nat) (hmm : PBmatchAt s i j2) : j2 ≤ j := by
  obtain ⟨⟨hij2, hjn2, hp2⟩, hbi, hbj2⟩ := hmm
  obtain ⟨hd, hcases⟩ := patP_slice_cases s i j2 hij2 hjn2 hp2
  unfold matchEndAt at hm
  split_ifs at hm with hc0 hc1 hc2 hc3 hc4 <;> injection hm with hj
  · -- longest alternative taken: j = i + d + 3
    rcases hcases with hA | ⟨he, _⟩ | ⟨he, _, _⟩ | ⟨he, _, _, _⟩ <;> omega
  · -- j = i + d + 1: alternatives C and D are refuted
    simp only [Bool.and_eq_true] at hc2
    rcases hcases with hA | ⟨he, _⟩ | ⟨he, hdsh, _⟩ | ⟨he, hl1, hdsh, hl2⟩
    · omega
    · omega
    · exfalso
      have hld : (chAt s (i + digitRun s i) == '-') = false :=
        letter_not_dash (chAt s (i + digitRun s i)) hc2.1
      have hds : (chAt s (i + digitRun s i) == '-') = true := hdsh
      rw [hld] at hds
      exact absurd hds (by decide)
    · exfalso
      apply hc1
      simp only [Bool.and_eq_true]
      refine ⟨⟨⟨hl1, hdsh⟩, hl2⟩, ?_⟩
      rw [← he]
      exact hbj2
  · -- j = i + d + 2: alternatives B and D are refuted
    simp only [Bool.and_eq_true] at hc3
    rcases hcases with hA | ⟨he, hl⟩ | ⟨he, _, _⟩ | ⟨he, hl1, hdsh, hl2⟩
    · omega
    · exfalso
      have hld : (chAt s (i + digitRun s i) == '-') = false :=
        letter_not_dash (chAt s (i + digitRun s i)) hl
      have hds : (chAt s (i + digitRun s i) == '-') = true := hc3.1.1
      rw [hld] at hds
      exact absurd hds (by decide)
    · omega
    · exfalso
      apply hc1
      simp only [Bool.and_eq_true]
      refine ⟨⟨⟨hl1, hdsh⟩, hl2⟩, ?_⟩
      rw [← he]
      exact hbj2
  · -- j = i + d: every longer alternative is refuted
    rcases hcases with hA | ⟨he, hl⟩ | ⟨he, hdsh, hl⟩ | ⟨he, hl1, hdsh, hl2⟩
    · omega
    · exfalso
      apply hc2
      simp only [Bool.and_eq_true]
      exact ⟨hl, by rw [← he]; exact hbj2⟩
    · exfalso
      apply hc3
      simp only [Bool.and_eq_true]
      exact ⟨⟨hdsh, hl⟩, by rw [← he]; exact hbj2⟩
    · exfalso
      apply hc1
      simp only [Bool.and_eq_true]
      exact ⟨⟨⟨hl1, hdsh⟩, hl2⟩, by rw [← he]; exact hbj2⟩

theorem matchEndAt_none_no_bmatch (s : List Char) (i : Nat)
    (hm : matchEndAt s i = none) (j2 : Nat) (hp : PmatchAt s i j2)
    (hbj : bAt s j2 = true) : False := by
  obtain ⟨hij2, hjn2, hp2⟩ := hp
  obtain ⟨hd, hcases⟩ := patP_slice_cases s i j2 hij2 hjn2 hp2
  unfold matchEndAt at hm
  split_ifs at hm with hc0 hc1 hc2 hc3 hc4
  · omega
  · rcases hcases with hA | ⟨he, hl⟩ | ⟨he, hdsh, hl⟩ | ⟨he, hl1, hdsh, hl2⟩
    · by_cases hj : j2 < i + digitRun s i
      · rw [bAt_inner_run s i j2 hij2 hj] at hbj
        exact absurd hbj (by decide)
      · have heq : j2 = i + digitRun s i := by omega
        rw [heq] at hbj
        exact hc4 hbj
    · apply hc2
      simp only [Bool.and_eq_true]
      exact ⟨hl, by rw [← he]; exact hbj⟩
    · apply hc3
      simp only [Bool.and_eq_true]
      exact ⟨⟨hdsh, hl⟩, by rw [← he]; exact hbj⟩
    · apply hc1
      simp only [Bool.and_eq_true]
      exact ⟨⟨⟨hl1, hdsh⟩, hl2⟩, by rw [← he]; exact hbj⟩

theorem mem_idxFrom (a len k : Nat) : k ∈ idxFrom a len ↔ a ≤ k ∧ k < a + len := by
  induction len generalizing a with
  | zero => simp [idxFrom]
  | succ p ih =>
    rw [idxFrom, List.mem_cons, ih (a + 1)]
    omega

theorem idxFrom_append (a m l : Nat) :
    idxFrom a (m + l) = idxFrom a m ++ idxFrom (a + m) l := by
  induction m generalizing a with
  | zero => simp [idxFrom]
  | succ p ih =>
    have h1 : (p + 1) + l = (p + l) + 1 := by omega
    rw [h1]
    show a :: idxFrom (a + 1) (p + l) = (a :: idxFrom (a + 1) p) ++ idxFrom (a + (p + 1)) l
    rw [ih (a + 1), List.cons_append]
    have h2 : a + 1 + p = a + (p + 1) := by omega
    rw [h2]

theorem filterMap_none_my (f : Nat → Option (Nat × Nat)) (l : List Nat)
    (h : ∀ x ∈ l, f x = none) : l.filterMap f = [] := by
  induction l with
  | nil => rfl
  | cons a r ih =>
    rw [List.filterMap_cons, h a (by simp)]
    exact ih fun x hx => h x (by simp [hx])

theorem filterMap_cons_none_my (f : Nat → Option (Nat × Nat)) (a : Nat) (l : List Nat)
    (h : f a = none) : (a :: l).filterMap f = l.filterMap f := by
  rw [List.filterMap_cons, h]

theorem filterMap_cons_some_my (f : Nat → Option (Nat × Nat)) (a : Nat) (l : List Nat)
    (b : Nat × Nat) (h : f a = some b) : (a :: l).filterMap f = b :: l.filterMap f := by
  rw [List.filterMap_cons, h]

theorem filterMap_congr_my (f g : Nat → Option (Nat × Nat)) (l : List Nat)
    (h : ∀ x ∈ l, f x = g x) : l.filterMap f = l.filterMap g := by
  induction l with
  | nil => rfl
  | cons a r ih =>
    rw [List.filterMap_cons, List.filterMap_cons, h a (by simp)]
    rw [ih fun x hx => h x (by simp [hx])]

theorem find?_unique_my (p : Nat → Bool) (l : List Nat) (j : Nat) (hj : p j = true)
    (hmem : j ∈ l) (huniq : ∀ k, p k = true → k = j) : l.find? p = some j := by
  induction l with
  | nil => simp at hmem
  | cons a r ih =>
    by_cases ha : p a = true
    · rw [List.find?_cons_of_pos _ ha, huniq a ha]
    · rw [List.find?_cons_of_neg _ (by simp [ha])]
      apply ih
      rcases List.mem_cons.mp hmem with h1 | h1
      · subst h1
        exact absurd hj ha
      · exact h1

theorem find?_all_false_my (p : Nat → Bool) (l : List Nat)
    (h : ∀ x ∈ l, p x = false) : l.find? p = none := by
  induction l with
  | nil => rfl
  | cons a r ih =>
    rw [List.find?_cons_of_neg _ (by simp [h a (by simp)])]
    exact ih fun x hx => h x (by simp [hx])

/-- A boundary-delimited occurrence is maximal exactly when the regex engine
reports it: the match attempted at boundary position `i` ends at `j`. -/
theorem maximalB_iff (s : List Char) (i j : Nat) :
    maximalB s i j = true ↔ (bAt s i = true ∧ matchEndAt s i = some j) := by
  constructor
  · intro h
    unfold maximalB at h
    rw [Bool.and_eq_true] at h
    obtain ⟨hpb, hns⟩ := h
    rw [decide_eq_true_iff] at hpb
    obtain ⟨hpm, hbi, hbj⟩ := hpb
    refine ⟨hbi, ?_⟩
    cases hme : matchEndAt s i with
    | none => exact (matchEndAt_none_no_bmatch s i hme j hpm hbj).elim
    | some j2 =>
      have hle : j ≤ j2 := matchEndAt_max s i j2 hme j ⟨hpm, hbi, hbj⟩
      by_cases heq : j2 = j
      · rw [heq]
      · exfalso
        have hpb2 : PBmatchAt s i j2 := matchEndAt_isBMatch s i j2 hbi hme
        have hbounds := matchEndAt_bounds s i j2 hme
        have hps : properSuperB s i j = true := by
          unfold properSuperB
          rw [List.any_eq_true]
          refine ⟨i, ?_, ?_⟩
          · rw [mem_idxFrom]
            have h1 := hpm.1
            have h2 := hpm.2.1
            omega
          · rw [List.any_eq_true]
            refine ⟨j2, ?_, ?_⟩
            · rw [mem_idxFrom]
              omega
            · simp only [Bool.and_eq_true, decide_eq_true_iff]
              refine ⟨⟨⟨le_refl i, hle⟩, ?_⟩, hpb2⟩
              simp [heq]
        rw [hps] at hns
        exact absurd hns (by decide)
  · intro hpair
    obtain ⟨hbi, hme⟩ := hpair
    unfold maximalB
    rw [Bool.and_eq_true]
    constructor
    · rw [decide_eq_true_iff]
      exact matchEndAt_isBMatch s i j hbi hme
    · rw [Bool.not_eq_true', Bool.eq_false_iff]
      intro hps
      unfold properSuperB at hps
      rw [List.any_eq_true] at hps
      obtain ⟨i2, hi2mem, hps2⟩ := hps
      rw [List.any_eq_true] at hps2
      obtain ⟨j2, hj2mem, hcond⟩ := hps2
      simp only [Bool.and_eq_true, decide_eq_true_iff] at hcond
      obtain ⟨⟨⟨hi2le, hjle⟩, hne⟩, hpb2⟩ := hcond
      by_cases hii : i2 = i
      · subst hii
        have hle2 : j2 ≤ j := matchEndAt_max s i2 j hme j2 hpb2
        have hj2j : j2 = j := by omega
        rw [hj2j] at hne
        simp at hne
      · have hlt : i2 < i := by omega
        obtain ⟨⟨hij2, hjn2, hp2⟩, hbi2, hbj2⟩ := hpb2
        have hdig : isDigitC (chAt s i) = true := matchEndAt_digit s i j hme
        have hib : i < j2 := by
          have := (matchEndAt_bounds s i j hme).1
          omega
        exact pmatch_no_inner s i2 j2 hij2 hjn2 hp2 i hlt hib hbi hdig

theorem bStarts_cons_none (s : List Char) (i : Nat) (hi : i < s.length)
    (hcontrib :
      (if bAt s i = true then (matchEndAt s i).map (fun j => (i, j)) else none) =
        (none : Option (Nat × Nat))) :
    bStarts s i = bStarts s (i + 1) := by
  unfold bStarts
  have hsplit : s.length - i = (s.length - (i + 1)) + 1 := by omega
  rw [hsplit]
  rw [show idxFrom i ((s.length - (i + 1)) + 1) =
    i :: idxFrom (i + 1) (s.length - (i + 1)) from rfl]
  exact filterMap_cons_none_my _ _ _ hcontrib

theorem bStarts_cons_some (s : List Char) (i j : Nat) (hi : i < s.length)
    (hb : bAt s i = true) (hme : matchEndAt s i = some j) :
    bStarts s i = (i, j) :: bStarts s j := by
  have hbounds := matchEndAt_bounds s i j hme
  unfold bStarts
  have hsplit : s.length - i = ((j - (i + 1)) + (s.length - j)) + 1 := by omega
  rw [hsplit]
  rw [show idxFrom i (((j - (i + 1)) + (s.length - j)) + 1) =
    i :: idxFrom (i + 1) ((j - (i + 1)) + (s.length - j)) from rfl]
  rw [filterMap_cons_some_my _ _ _ (i, j) (by rw [if_pos hb, hme]; rfl)]
  rw [idxFrom_append, List.filterMap_append]
  have hmid : ∀ x ∈ idxFrom (i + 1) (j - (i + 1)),
      (fun k => if bAt s k = true then (matchEndAt s k).map (fun j2 => (k, j2)) else none)
        x = none := by
    intro x hx
    rw [mem_idxFrom] at hx
    show (if bAt s x = true then (matchEndAt s x).map (fun j2 => (x, j2)) else none) = none
    by_cases hbx : bAt s x = true
    · rw [if_pos hbx]
      cases hmx : matchEndAt s x with
      | none => rfl
      | some jx =>
        exfalso
        have hdx : isDigitC (chAt s x) = true := matchEndAt_digit s x jx hmx
        have hpb : PBmatchAt s i j := matchEndAt_isBMatch s i j hb hme
        exact pmatch_no_inner s i j hpb.1.1 hpb.1.2.1 hpb.1.2.2 x (by omega) (by omega)
          hbx hdx
    · rw [if_neg hbx]
  rw [filterMap_none_my _ _ hmid, List.nil_append]
  rw [show (i + 1) + (j - (i + 1)) = j from by omega]

theorem scanFrom_eq_bStarts (s : List Char) :
    ∀ (fuel i : Nat), s.length ≤ i + fuel → scanFrom s fuel i = bStarts s i := by
  intro fuel
  induction fuel with
  | zero =>
    intro i h
    have h0 : s.length - i = 0 := by omega
    show ([] : List (Nat × Nat)) = bStarts s i
    unfold bStarts
    rw [h0]
    rfl
  | succ f ih =>
    intro i h
    rw [show scanFrom s (f + 1) i =
      (if i < s.length then
        (if bAt s i then
          (match matchEndAt s i with
           | some j => (i, j) :: scanFrom s f j
           | none => scanFrom s f (i + 1))
         else scanFrom s f (i + 1))
       else []) from rfl]
    by_cases hi : i < s.length
    · rw [if_pos hi]
      by_cases hb : bAt s i = true
      · rw [if_pos hb]
        cases hme : matchEndAt s i with
        | none =>
          show scanFrom s f (i + 1) = bStarts s i
          rw [ih (i + 1) (by omega)]
          exact (bStarts_cons_none s i hi (by rw [if_pos hb, hme]; rfl)).symm
        | some j =>
          show (i, j) :: scanFrom s f j = bStarts s i
          have hbounds := matchEndAt_bounds s i j hme
          rw [ih j (by omega)]
          exact (bStarts_cons_some s i j hi hb hme).symm
      · rw [if_neg hb]
        rw [ih (i + 1) (by omega)]
        exact (bStarts_cons_none s i hi (by rw [if_neg hb])).symm
    · rw [if_neg hi]
      have h0 : s.length - i = 0 := by omega
      unfold bStarts
      rw [h0]
      rfl

theorem specIntervalsB_eq_bStarts (s : List Char) : specIntervalsB s = bStarts s 0 := by
  unfold specIntervalsB bStarts
  rw [Nat.sub_zero]
  nth_rewrite 2 [idxFrom_append 0 s.length 1]
  rw [List.filterMap_append]
  have hlast : ∀ x ∈ idxFrom (0 + s.length) 1,
      (fun i => (List.find? (fun j => maximalB s i j) (idxFrom 0 (s.length + 1))).map
        (fun j => (i, j))) x = none := by
    intro x hx
    rw [mem_idxFrom] at hx
    have hxn : x = s.length := by omega
    subst hxn
    show (List.find? (fun j => maximalB s s.length j) (idxFrom 0 (s.length + 1))).map
      (fun j => (s.length, j)) = none
    have hfalse : ∀ k ∈ idxFrom 0 (s.length + 1),
        (fun j => maximalB s s.length j) k = false := by
      intro k hkmem
      show maximalB s s.length k = false
      rw [Bool.eq_false_iff]
      intro hk
      obtain ⟨hbk, hmek⟩ := (maximalB_iff s s.length k).mp hk
      have := matchEndAt_bounds s s.length k hmek
      omega
    rw [find?_all_false_my _ _ hfalse]
    rfl
  rw [filterMap_none_my _ _ hlast, List.append_nil]
  apply filterMap_congr_my
  intro x hx
  show (List.find? (fun j => maximalB s x j) (idxFrom 0 (s.length + 1))).map
      (fun j => (x, j)) =
    (if bAt s x = true then (matchEndAt s x).map (fun j => (x, j)) else none)
  by_cases hbx : bAt s x = true
  · cases hmx : matchEndAt s x with
    | some j =>
      have hmaxt : maximalB s x j = true := (maximalB_iff s x j).mpr ⟨hbx, hmx⟩
      have hbounds := matchEndAt_bounds s x j hmx
      have hmem : j ∈ idxFrom 0 (s.length + 1) := by
        rw [mem_idxFrom]
        omega
      have huniq : ∀ k, (fun j2 => maximalB s x j2) k = true → k = j := by
        intro k hk
        obtain ⟨hbk, hmek⟩ := (maximalB_iff s x k).mp hk
        rw [hmx] at hmek
        exact (Option.some.inj hmek).symm
      rw [find?_unique_my (fun j2 => maximalB s x j2) (idxFrom 0 (s.length + 1)) j
        hmaxt hmem huniq]
      rw [if_pos hbx]
    | none =>
      have hfalse : ∀ k ∈ idxFrom 0 (s.length + 1),
          (fun j2 => maximalB s x j2) k = false := by
        intro k hkmem
        show maximalB s x k = false
        rw [Bool.eq_false_iff]
        intro hk
        obtain ⟨hbk, hmek⟩ := (maximalB_iff s x k).mp hk
        rw [hmx] at hmek
        exact absurd hmek (by simp)
      rw [find?_all_false_my _ _ hfalse, if_pos hbx]
  · have hfalse : ∀ k ∈ idxFrom 0 (s.length + 1),
        (fun j2 => maximalB s x j2) k = false := by
      intro k hkmem
      show maximalB s x k = false
      rw [Bool.eq_false_iff]
      intro hk
      exact hbx ((maximalB_iff s x k).mp hk).1
    rw [find?_all_false_my _ _ hfalse, if_neg hbx]
    rfl

/-- The regex scan produces exactly the maximal boundary-delimited
occurrences of the pattern, in first-occurrence order. -/
theorem extractIntervals_eq_specB (s : List Char) :
    extractIntervals s = specIntervalsB s := by
  rw [extractIntervals, scanFrom_eq_bStarts s (s.length + 1) 0 (by omega),
    specIntervalsB_eq_bStarts]

/-- Claim C2 (amended): the code's extracted section list equals, for every
input string, the normalized de-duplicated tokens of the maximal
WORD-BOUNDARY-DELIMITED substrings matching "one or more digits, optionally
followed by a single letter, optionally followed by a hyphen and a letter";
the claim's concrete examples hold as stated. -/
theorem claimC2_theorem :
    extractSections "IPC 302 376" = ["302", "376"] ∧
    extractSections "IPC 302 302" = ["302"] ∧
    extractSections "120-B" = ["120B"] ∧
    ∀ input : String, extractSections input = specExtractBounded input := by
  refine ⟨by decide, by decide, by decide, ?_⟩
  intro input
  unfold extractSections specExtractBounded
  rw [extractIntervals_eq_specB]

/-- Counterexample to C2 as stated: without the word-boundary requirement the
spec's "maximal substrings matching the pattern" reading disagrees with the
code.  In `"1A2"` the substrings `"1A"` and `"2"` are maximal occurrences of
the pattern, but the regex `/\b(\d+[A-Z]?(-[A-Z])?)\b/gi` matches nothing
(no interior position of `1A2` is a word boundary), so the code extracts
nothing. -/
theorem claimC2_counterexample :
    extractSections "1A2" = [] ∧
    specExtractMaximal "1A2" = ["1A", "2"] ∧
    ¬(extractSections "1A2" = specExtractMaximal "1A2") :=
  ⟨by decide, by decide, by decide⟩

end LawGenAI
